import Mathlib

/-!
Shallow embedding of the symbol-table and precedence-relation engine of
src/src/symtab.c (Bison's symbol table manager), together with proofs about
the claims of the specification.

Conventions of the embedding:
* machine integers that only ever hold small non-negative counts are `Nat`;
* `NUMBER_UNDEFINED` is modelled by `Option Nat` (`none` = undefined);
* `USER_NUMBER_UNDEFINED` / `USER_NUMBER_HAS_STRING_ALIAS` are the two
  non-numeric constructors of the `UserNum` type (in C they are the distinct
  sentinel integers -1 and -9991, never confused with real token numbers);
* source locations are opaque `Nat`s;
* the diagnostic sink (`complain` / `complain_indent`) is modelled by
  appending records to a list of `Diag`;
* pointer-mutating C functions become state-passing Lean functions; pointers
  into the symbol store become `Nat` identifiers indexed into a
  `Nat → _` store function.
-/

namespace Symtab

/-- The `symbol_class` enumeration of symtab.h. -/
inductive SymClass
  | unknown_sym
  | token_sym
  | nterm_sym
deriving DecidableEq, Repr

/-- The `assoc` enumeration (assoc.h). -/
inductive Assoc
  | undef_assoc
  | right_assoc
  | left_assoc
  | non_assoc
  | precedence_assoc
deriving DecidableEq, Repr

/-- The `status` enumeration of symtab.h. -/
inductive SymStatus
  | undeclared
  | needed
  | declared
deriving DecidableEq, Repr

/-- The user token number slot: `USER_NUMBER_UNDEFINED`,
`USER_NUMBER_HAS_STRING_ALIAS`, or an actual non-negative number. -/
inductive UserNum
  | undef
  | hasStringAlias
  | num (u : Nat)
deriving DecidableEq, Repr

/-- Diagnostic severities used by symtab.c. -/
inductive Severity
  | fatal_s
  | complaint_s
  | Wyacc_s
  | Wprecedence_s
  | Wother_s
deriving DecidableEq, Repr

/-- One diagnostic record sent to the `complain` / `complain_indent` sink. -/
structure Diag where
  sev : Severity
  loc : Nat
  indent : Nat
  msg : String
deriving DecidableEq, Repr

/-- A symbol record (struct `symbol` of symtab.h), restricted to the fields
the verified operations read or write.  `alias` is an identifier into a
symbol store when a store is in play. -/
structure Symbol where
  tag : String
  type_name : Option String := none
  type_location : Nat := 0
  number : Option Nat := none
  prec : Nat := 0
  assoc : Assoc := Assoc.undef_assoc
  prec_location : Nat := 0
  user_token_number : UserNum := UserNum.undef
  cls : SymClass := SymClass.unknown_sym
  status : SymStatus := SymStatus.undeclared
  alias_ : Option Nat := none
deriving DecidableEq, Repr

instance : Inhabited Symbol := ⟨{ tag := "" }⟩

/-- Global mutable state used by the mutators: the `ntokens` / `nvars`
counters and the diagnostic sink. -/
structure PState where
  ntokens : Nat := 0
  nvars : Nat := 0
  diags : List Diag := []
deriving DecidableEq, Repr

/-- Build a diagnostic record with zero indentation. -/
def mkDiag (sev : Severity) (loc : Nat) (msg : String) : Diag :=
  { sev := sev, loc := loc, indent := 0, msg := msg }

/-- `complain (&loc, sev, msg)`. -/
def complain (st : PState) (sev : Severity) (loc : Nat) (msg : String) : PState :=
  { st with diags := st.diags ++ [mkDiag sev loc msg] }

/-- `symbol_redeclaration`: the two-location complaint (primary at the second
location, indented "previous declaration" note at the first). -/
def symbol_redeclaration (tag what : String) (first second : Nat) : List Diag :=
  [{ sev := Severity.complaint_s, loc := second, indent := 0,
     msg := what ++ " redeclaration for " ++ tag },
   { sev := Severity.complaint_s, loc := first, indent := 2,
     msg := "previous declaration" }]

/-- `assoc_to_string` (assoc.c). -/
def assoc_to_string : Assoc → String
  | Assoc.undef_assoc => "undefined associativity"
  | Assoc.right_assoc => "%right"
  | Assoc.left_assoc => "%left"
  | Assoc.non_assoc => "%nonassoc"
  | Assoc.precedence_assoc => "%precedence"

/-- `symbol_type_set` (symtab.c:245-256).  Does nothing when passed a null
type name; otherwise complains about a redeclaration when a type name is
already present, and then (unconditionally) overwrites the type name and its
location. -/
def symbol_type_set (sym : Symbol) (type_name : Option String) (loc : Nat)
    (ds : List Diag) : Symbol × List Diag :=
  match type_name with
  | none => (sym, ds)
  | some t =>
    let ds := if sym.type_name ≠ none then
        ds ++ symbol_redeclaration sym.tag "%type" sym.type_location loc
      else ds
    ({ sym with type_name := some t, type_location := loc }, ds)

/-- `symbol_class_set` (symtab.c:347-371). -/
def symbol_class_set (sym : Symbol) (c : SymClass) (loc : Nat)
    (declaring : Bool) (st : PState) : Symbol × PState :=
  let warned := sym.cls ≠ SymClass.unknown_sym ∧ sym.cls ≠ c
  let st := if warned then
      complain st Severity.complaint_s loc ("symbol " ++ sym.tag ++ " redefined")
    else st
  let p :=
    if c = SymClass.nterm_sym ∧ sym.cls ≠ SymClass.nterm_sym then
      ({ sym with number := some st.nvars }, { st with nvars := st.nvars + 1 })
    else if c = SymClass.token_sym ∧ sym.number = none then
      ({ sym with number := some st.ntokens }, { st with ntokens := st.ntokens + 1 })
    else (sym, st)
  let sym := { p.1 with cls := c }
  let st := p.2
  if declaring then
    let st := if sym.status = SymStatus.declared ∧ ¬ warned then
        complain st Severity.Wother_s loc ("symbol " ++ sym.tag ++ " redeclared")
      else st
    ({ sym with status := SymStatus.declared }, st)
  else (sym, st)

/-- `symbol_precedence_set` (symtab.c:325-340).  Note that the final
`symbol_class_set` call sits outside the `assoc ≠ undef` conditional in the
source. -/
def symbol_precedence_set (sym : Symbol) (p : Nat) (a : Assoc) (loc : Nat)
    (st : PState) : Symbol × PState :=
  let q :=
    if a ≠ Assoc.undef_assoc then
      let st := if sym.prec ≠ 0 then
          { st with diags := st.diags ++
              symbol_redeclaration sym.tag (assoc_to_string a) sym.prec_location loc }
        else st
      ({ sym with prec := p, assoc := a, prec_location := loc }, st)
    else (sym, st)
  symbol_class_set q.1 SymClass.token_sym loc false q.2

/-- State for `symbol_user_token_number_set`: the `ntokens` counter, the
distinguished `endtoken` pointer (modelled by the value it points at), and
the diagnostic sink. -/
structure UtnState where
  ntokens : Nat := 0
  endtoken : Option Symbol := none
  diags : List Diag := []
deriving DecidableEq, Repr

/-- `symbol_user_token_number_set` (symtab.c:378-403).  `al` is the record
`sym.alias` points at (if any); writes are routed to it when `sym` carries
the has-string-alias sentinel.  When the number is 0 the symbol becomes the
endtoken, `ntokens` is decremented when `sym.number` was already defined, and
`sym.number` is forced to 0. -/
def symbol_user_token_number_set (sym : Symbol) (al : Option Symbol)
    (utn : Nat) (loc : Nat) (st : UtnState) : Symbol × Option Symbol × UtnState :=
  let own := sym.user_token_number ≠ UserNum.hasStringAlias
  let current := if own then sym.user_token_number else
    (match al with
     | some a => a.user_token_number
     | none => UserNum.undef)
  let st := if current ≠ UserNum.undef ∧ current ≠ UserNum.num utn then
      { st with diags := st.diags ++ [mkDiag Severity.complaint_s loc
          ("redefining user token number of " ++ sym.tag)] }
    else st
  let sym := if own then { sym with user_token_number := UserNum.num utn } else sym
  let al := if own then al else
    al.map (fun a => { a with user_token_number := UserNum.num utn })
  if utn = 0 then
    let st := if sym.number ≠ none then { st with ntokens := st.ntokens - 1 } else st
    let sym := { sym with number := some 0 }
    (sym, al, { st with endtoken := some sym })
  else (sym, al, st)

/-- `symbol_make_alias` (symtab.c:482-501), acting on a store of symbol
records indexed by identifiers.  `symId` names the identifier-form record,
`strId` the literal-string record. -/
def symbol_make_alias (store : Nat → Symbol) (symId strId : Nat) (loc : Nat)
    (ds : List Diag) : (Nat → Symbol) × List Diag :=
  let sym := store symId
  let str := store strId
  if str.alias_ ≠ none then
    (store, ds ++ [mkDiag Severity.Wother_s loc
      ("symbol " ++ str.tag ++ " used more than once as a literal string")])
  else if sym.alias_ ≠ none then
    (store, ds ++ [mkDiag Severity.Wother_s loc
      ("symbol " ++ sym.tag ++ " given more than one literal string")])
  else
    let str := { str with
      cls := SymClass.token_sym,
      user_token_number := sym.user_token_number,
      alias_ := some symId,
      number := sym.number }
    let sym := { sym with
      user_token_number := UserNum.hasStringAlias,
      alias_ := some strId }
    let r := symbol_type_set str sym.type_name loc ds
    (fun i => if i = strId then r.1 else if i = symId then sym else store i, r.2)

/-! ## Token-translation initialization (symtab.c:891-939)

`symbols_token_translations_init` walks `symbols[0..ntokens)`; we model that
prefix as a list `toks` of symbol records, with `errIdx` the position of the
distinguished `errtoken` inside it. -/

/-- One step of the first scan: `if (utn defined && utn > max) max = utn`. -/
def utn_max_step (m : Nat) (s : Symbol) : Nat :=
  match s.user_token_number with
  | UserNum.num u => if u > m then u else m
  | _ => m

/-- The first scan of `symbols_token_translations_init`: the largest defined
user token number (0 when none). -/
def collect_max (toks : List Symbol) : Nat :=
  toks.foldl utn_max_step 0

/-- Whether some token claims user number 256 (the first scan's
`num_256_available_p`, negated). -/
def num_256_claimed (toks : List Symbol) : Bool :=
  toks.any (fun s => s.user_token_number = UserNum.num 256)

/-- The POSIX step: `if (256 free && errtoken undefined) errtoken->utn = 256`. -/
def posix_error_step (toks : List Symbol) (errIdx : Nat) : List Symbol :=
  if ¬ num_256_claimed toks = true ∧
      (toks.getD errIdx default).user_token_number = UserNum.undef then
    toks.set errIdx
      { toks.getD errIdx default with user_token_number := UserNum.num 256 }
  else toks

/-- The second scan: assign `++max` to every token whose user number is still
undefined, and keep `max` at the running maximum. -/
def assign_missing : List Symbol → Nat → List Symbol × Nat
  | [], m => ([], m)
  | s :: rest, m =>
    let p := if s.user_token_number = UserNum.undef then
        ({ s with user_token_number := UserNum.num (m + 1) }, m + 1)
      else (s, m)
    let m2 := utn_max_step p.2 p.1
    let r := assign_missing rest m2
    (p.1 :: r.1, r.2)

/-- `symbols_token_translations_init` (symtab.c:891-939) up to the point
where `token_translations` is allocated: returns the updated token records
and the final `max_user_token_number`.  (The subsequent filling of the
`token_translations` array reads, but never writes, these outputs.) -/
def symbols_token_translations_init (toks : List Symbol) (errIdx : Nat) :
    List Symbol × Nat :=
  assign_missing (posix_error_step toks errIdx)
    (if collect_max toks < 256 then 256 else collect_max toks)

/-! ## Packing (symtab.c:563-574 and 947-990)

`symbols_pack` first places every record of the (tag-sorted) symbol store
into the `symbols` array via `symbol_pack`, then compacts the array, walking
it end to end: a null slot decrements `nsyms` and `ntokens`; a non-null slot
is moved to the write index, its `number` (and its alias's `number`) is
rewritten to the write index. -/

/-- A symbol record as `symbol_pack` sees it: by this point every record has
a defined `number` (the `aver` at symtab.c:566). -/
structure PackSym where
  number : Nat
  cls : SymClass
  user_token_number : UserNum
  alias_ : Option Nat
deriving DecidableEq, Repr

instance : Inhabited PackSym :=
  ⟨{ number := 0, cls := SymClass.unknown_sym,
     user_token_number := UserNum.undef, alias_ := none }⟩

/-- Write the `number` field of record `i` in a store. -/
def store_set_number (store : Nat → PackSym) (i : Nat) (v : Nat) :
    Nat → PackSym :=
  fun j => if j = i then { store j with number := v } else store j

/-- `symbol_pack` (symtab.c:563-574): shift a nonterminal's number by
`ntokens` and place it; skip the identifier side of an alias pair; place any
other record at its number. -/
def symbol_pack (ntokens : Nat) (acc : (Nat → PackSym) × List (Option Nat))
    (i : Nat) : (Nat → PackSym) × List (Option Nat) :=
  let s := acc.1 i
  if s.cls = SymClass.nterm_sym then
    let store := store_set_number acc.1 i (s.number + ntokens)
    (store, acc.2.set (s.number + ntokens) (some i))
  else if s.user_token_number = UserNum.hasStringAlias then acc
  else (acc.1, acc.2.set s.number (some i))

/-- The placement phase of `symbols_pack`: `symbols = xcalloc (nsyms, ...)`
followed by `symbols_do (symbol_pack_processor, ...)` over the store in tag
order (`order` is that iteration order). -/
def symbols_place (store : Nat → PackSym) (order : List Nat)
    (nsyms ntokens : Nat) : (Nat → PackSym) × List (Option Nat) :=
  order.foldl (symbol_pack ntokens) (store, List.replicate nsyms none)

/-- State of the compaction loop of `symbols_pack`: the store, the prefix of
survivors written so far (`out.length` is `writei`), and the counters. -/
structure CompactState where
  store : Nat → PackSym
  out : List Nat
  nsyms : Nat
  ntokens : Nat

/-- One iteration of the compaction loop (symtab.c:961-976). -/
def compact_step (st : CompactState) (slot : Option Nat) : CompactState :=
  match slot with
  | none => { st with nsyms := st.nsyms - 1, ntokens := st.ntokens - 1 }
  | some i =>
    let w := st.out.length
    let store := store_set_number st.store i w
    let store :=
      match (store i).alias_ with
      | some a => store_set_number store a w
      | none => store
    { st with store := store, out := st.out ++ [i] }

/-- `symbols_pack` (symtab.c:947-990), placement followed by compaction.
(The alias-consistency sweep that precedes placement in the source does not
touch `number`, `class`, or `alias`, the fields this model tracks.) -/
def symbols_pack_run (store : Nat → PackSym) (order : List Nat)
    (nsyms ntokens : Nat) : CompactState :=
  let p := symbols_place store order nsyms ntokens
  p.2.foldl compact_step { store := p.1, out := [], nsyms := nsyms, ntokens := ntokens }

/-- The final position of a record under `symbol_pack`, relative to the
original store: nonterminal numbers are shifted by `ntokens`. -/
def pack_pos (store : Nat → PackSym) (ntokens : Nat) (i : Nat) : Nat :=
  if (store i).cls = SymClass.nterm_sym then (store i).number + ntokens
  else (store i).number

/-- Whether `symbol_pack` places record `i` (rather than skipping it as the
identifier side of an alias pair). -/
def placedP (store : Nat → PackSym) (i : Nat) : Prop :=
  (store i).cls = SymClass.nterm_sym ∨
    (store i).user_token_number ≠ UserNum.hasStringAlias

instance (store : Nat → PackSym) (i : Nat) : Decidable (placedP store i) := by
  unfold placedP; infer_instance

/-! ## The precedence graph DOT output (symtab.c:1687-1753) -/

/-- The edge-color computation of `print_graph_link` (symtab.c:1687-1716):
`tout` is the tail's outdegree, `hin` the head's indegree, `col` the flag
that enables coloring. -/
def link_color (tout hin : Nat) (col : Bool) : String :=
  if col then
    if tout = 1 then
      if hin = 1 then "red" else "blue"
    else if hin = 1 then "red"
    else "black"
  else "black"

/-- The color the legend printed by `print_rel_dot_graph`
(symtab.c:1726-1731) promises for an edge: red when both relevant degrees
are 1, blue when only the outdegree is 1, green when only the indegree is 1,
black otherwise. -/
def legend_color (tout hin : Nat) : String :=
  if tout = 1 ∧ hin = 1 then "red"
  else if tout = 1 then "blue"
  else if hin = 1 then "green"
  else "black"

/-! ## The stores and the post-sort insertion assertion
(symtab.c:725-768 and 293-318) -/

/-- The symbol hash table together with its one-shot sorted view
(`symbols_sorted`): `table` is the set of interned tags present, `sorted`
is `some _` once `symbols_do` has materialized the sorted view. -/
structure SymTable where
  table : List String
  sorted : Option (List String)
deriving DecidableEq, Repr

/-- The semantic-type table with its own sorted view
(`semantic_types_sorted`). -/
structure TypeRec where
  tag : String
  destructor_code : Option String
  printer_code : Option String
deriving DecidableEq, Repr

structure TypeTable where
  table : List TypeRec
  sorted : Option (List String)
deriving DecidableEq, Repr

/-- `symbol_from_uniqstr` (symtab.c:725-743).  On a miss it asserts
`aver (!symbols_sorted)` before inserting; a tripped assertion is modelled
by `none`.  The `Bool` reports whether a record was created. -/
def symbol_from_uniqstr (key : String) (st : SymTable) :
    Option (SymTable × Bool) :=
  if key ∈ st.table then some (st, false)
  else if st.sorted ≠ none then none
  else some ({ st with table := st.table ++ [key] }, true)

/-- `semantic_type_from_uniqstr` (symtab.c:751-768).  On a miss it inserts
unconditionally: there is no assertion on the sorted view. -/
def semantic_type_from_uniqstr (key : String) (st : TypeTable) :
    TypeTable × Bool :=
  if key ∈ st.table.map TypeRec.tag then (st, false)
  else ({ st with table := st.table ++
      [{ tag := key, destructor_code := none, printer_code := none }] }, true)

/-- `semantic_type_get` (symtab.c:788-792): lookup-or-create, returning the
record found or created. -/
def semantic_type_get (key : String) (st : TypeTable) : TypeTable × TypeRec :=
  let r := semantic_type_from_uniqstr key st
  (r.1, (r.1.table.find? (fun t => t.tag = key)).getD
    { tag := key, destructor_code := none, printer_code := none })

/-- The destructor slot of a `TypeRec` (the `props[destructor]` read of
`symbol_code_props_get`; the printer case is symmetric). -/
def type_destructor (t : TypeRec) : Option String := t.destructor_code

/-- `symbol_code_props_get` (symtab.c:293-318) for the destructor slot:
per-symbol code first, then the code of the symbol's semantic type, then the
default types `"*"`/`""` (the latter two lookups go through
`semantic_type_get` and may create records).  `isErr` models `sym == errtoken`; the
`tag[0] != '$'` test is the head-character test on the tag.
Returns the resolved code and the (possibly grown) semantic-type table. -/
def symbol_code_props_get (tag : String) (props_code : Option String)
    (type_name : Option String) (isErr : Bool) (st : TypeTable) :
    Option String × TypeTable :=
  if props_code ≠ none then (props_code, st)
  else
    match type_name with
    | some tn =>
      let r := semantic_type_get tn st
      if type_destructor r.2 ≠ none then (type_destructor r.2, r.1)
      else if tag.data.head? ≠ some '$' ∧ isErr = false then
        let r2 := semantic_type_get "*" r.1
        (type_destructor r2.2, r2.1)
      else (none, r.1)
    | none =>
      if tag.data.head? ≠ some '$' ∧ isErr = false then
        let r2 := semantic_type_get "" st
        (type_destructor r2.2, r2.1)
      else (none, st)

/-! ## Transitive closure and reduction (symtab.c:1852-1899)

The relation matrix is a `Fin n → Fin n → Bool` function.  The Warshall
loops are embedded with explicit sequential state passing (the C code
updates `cl` in place). -/

/-- A square boolean matrix on `n` nodes. -/
def Mat (n : Nat) : Type := Fin n → Fin n → Bool

/-- The body of the Warshall loops:
`if (cl[i][k] && cl[k][j]) cl[i][j] = true`. -/
def wstep {n : Nat} (m : Mat n) (k i j : Fin n) : Mat n :=
  if m i k && m k j then
    fun a b => if a = i ∧ b = j then true else m a b
  else m

/-- The inner `j` loop of `transitive_closure`, run for `j = 0, …, J-1`. -/
def winner {n : Nat} (m : Mat n) (k i : Fin n) : Nat → Mat n
  | 0 => m
  | J + 1 =>
    if h : J < n then wstep (winner m k i J) k i ⟨J, h⟩ else winner m k i J

/-- The middle `i` loop of `transitive_closure`, run for `i = 0, …, I-1`. -/
def wmid {n : Nat} (m : Mat n) (k : Fin n) : Nat → Mat n
  | 0 => m
  | I + 1 =>
    if h : I < n then winner (wmid m k I) k ⟨I, h⟩ n else wmid m k I

/-- The outer `k` loop of `transitive_closure`, run for `k = 0, …, K-1`. -/
def wouter {n : Nat} (m : Mat n) : Nat → Mat n
  | 0 => m
  | K + 1 =>
    if h : K < n then wmid (wouter m K) ⟨K, h⟩ n else wouter m K

/-- `transitive_closure` (symtab.c:1852-1862): Warshall's algorithm over a
copy of the matrix. -/
def transitive_closure {n : Nat} (g : Mat n) : Mat n :=
  wouter g n

/-- The body of the `rem` loops: `rem[i][k] = true`. -/
def remSet {n : Nat} (rem : Mat n) (i k : Fin n) : Mat n :=
  fun a b => if a = i ∧ b = k then true else rem a b

/-- The inner `k` loop filling `rem`, guarded by `cl[j][k]`. -/
def remInner {n : Nat} (cl : Mat n) (i j : Fin n) (rem : Mat n) : Nat → Mat n
  | 0 => rem
  | K + 1 =>
    if h : K < n then
      let r := remInner cl i j rem K
      if cl j ⟨K, h⟩ then remSet r i ⟨K, h⟩ else r
    else remInner cl i j rem K

/-- The middle `j` loop filling `rem`, guarded by `cl[i][j]`. -/
def remMid {n : Nat} (cl : Mat n) (i : Fin n) (rem : Mat n) : Nat → Mat n
  | 0 => rem
  | J + 1 =>
    if h : J < n then
      let r := remMid cl i rem J
      if cl i ⟨J, h⟩ then remInner cl i ⟨J, h⟩ r n else r
    else remMid cl i rem J

/-- The outer `i` loop filling `rem`. -/
def remOuter {n : Nat} (cl : Mat n) (rem : Mat n) : Nat → Mat n
  | 0 => rem
  | I + 1 =>
    if h : I < n then remMid cl ⟨I, h⟩ (remOuter cl rem I) n
    else remOuter cl rem I

/-- The `rem` matrix of `transitive_reduction` (symtab.c:1874-1887):
`rem[i][k]` is set whenever `cl[i][j] && cl[j][k]` for some `j`. -/
def remMatrix {n : Nat} (cl : Mat n) : Mat n :=
  remOuter cl (fun _ _ => false) n

/-- `transitive_reduction` (symtab.c:1868-1899): keep edge `(i,j)` of the
closure iff no intermediate node witnesses it
(`g[i][j] = cl[i][j] && !rem[i][j]`). -/
def transitive_reduction {n : Nat} (g : Mat n) : Mat n :=
  let cl := transitive_closure g
  let rem := remMatrix cl
  fun i j => cl i j && ! rem i j

/-- The edge relation of a boolean matrix. -/
def MatRel {n : Nat} (g : Mat n) : Fin n → Fin n → Prop :=
  fun a b => g a b = true

/-- Reachability with all intermediate nodes of index `< k` (the loop
invariant of Warshall's algorithm). -/
inductive BReach {n : Nat} (g : Mat n) (k : Nat) : Fin n → Fin n → Prop
  | base {i j : Fin n} : g i j = true → BReach g k i j
  | comp {i m j : Fin n} :
      BReach g k i m → BReach g k m j → m.val < k → BReach g k i j

/-- The interval of intermediate closure nodes between `a` and `b`, used as
the termination measure of the reduction-completeness argument. -/
def clInterval {n : Nat} (g : Mat n) (a b : Fin n) : Finset (Fin n) :=
  Finset.univ.filter
    (fun c => transitive_closure g a c = true ∧ transitive_closure g c b = true)

/-- One closed-form pass of Warshall's algorithm at pivot `k`, used to
evaluate `transitive_closure` on concrete inputs. -/
def closureStep {n : Nat} (m : Mat n) (k : Fin n) : Mat n :=
  fun a b => m a b || (m a k && m k b)

/-- The closed-form iteration of Warshall pivots `0, …, K-1`. -/
def closureIter {n : Nat} (g : Mat n) : Nat → Mat n
  | 0 => g
  | K + 1 =>
    if h : K < n then closureStep (closureIter g K) ⟨K, h⟩ else closureIter g K

/-- The one-node graph with a self-loop. -/
def gLoop : Mat 1 := fun _ _ => true

/-- The three-node graph with edges 0→1, 1→2 and the redundant 0→2. -/
def g3 : Mat 3 := fun a b =>
  decide ((a.val = 0 ∧ b.val = 1) ∨ (a.val = 1 ∧ b.val = 2) ∨
    (a.val = 0 ∧ b.val = 2))

/-! ## Concrete inputs used by counterexamples and witnesses -/

/-- A freshly created symbol (all defaults of `symbol_new`). -/
def freshSym : Symbol := { tag := "FOO" }

/-- A token that already owns internal number 5. -/
def tokSym5 : Symbol :=
  { tag := "TOK", number := some 5, cls := SymClass.token_sym }

/-- A nonterminal that owns internal number 0 (taken from `nvars`, not from
`ntokens`). -/
def ntermSym0 : Symbol :=
  { tag := "exp", number := some 0, cls := SymClass.nterm_sym }

/-- A symbol whose type was declared once already. -/
def typedSym : Symbol :=
  { tag := "x", type_name := some "INT", type_location := 1 }

/-- A two-record store for the alias witness: the identifier `IF` and the
literal string `"if"`. -/
def aliasStore : Nat → Symbol :=
  fun i =>
    if i = 0 then { tag := "IF", number := some 2, user_token_number := UserNum.num 300 }
    else if i = 1 then { tag := "\"if\"" }
    else default

/-- The numeric value of a user token number slot (0 for the non-numeric
sentinels, which the C comparisons `> max` never select because they are
negative). -/
def utnv (s : Symbol) : Nat :=
  match s.user_token_number with
  | UserNum.num u => u
  | _ => 0

/-- The E4 scenario: three tokens with user numbers 100, 200, 400, and the
error token (at index 3) with no user number. -/
def E4toks : List Symbol :=
  [{ tag := "HUNDRED", cls := SymClass.token_sym, number := some 3,
     user_token_number := UserNum.num 100 },
   { tag := "TWOHUNDRED", cls := SymClass.token_sym, number := some 4,
     user_token_number := UserNum.num 200 },
   { tag := "FOURHUNDRED", cls := SymClass.token_sym, number := some 5,
     user_token_number := UserNum.num 400 },
   { tag := "error", cls := SymClass.token_sym, number := some 1 }]

/-- A three-record pre-pack store for the packing witness: token `10`
(number 0, an alias pair with the skipped identifier record `11`), and
nonterminal `12` (number 0). -/
def packStore : Nat → PackSym :=
  fun i =>
    if i = 10 then
      { number := 0, cls := SymClass.token_sym,
        user_token_number := UserNum.num 300, alias_ := some 11 }
    else if i = 11 then
      { number := 0, cls := SymClass.token_sym,
        user_token_number := UserNum.hasStringAlias, alias_ := some 10 }
    else if i = 12 then
      { number := 0, cls := SymClass.nterm_sym,
        user_token_number := UserNum.undef, alias_ := none }
    else default

/-- The tag-sorted iteration order for the packing witness. -/
def packOrder : List Nat := [10, 11, 12]

/-!
# Theorems
-/

/-- C3, counterexample.  `symbol_precedence_set` with `undef_assoc` is *not*
a no-op: on a fresh symbol it forces the class to token, assigns internal
number 0 from `ntokens`, and bumps `ntokens` — because the closing
`symbol_class_set` call of the source sits outside the
`assoc != undef_assoc` conditional. -/
theorem symbol_precedence_set_undef_not_noop :
    (symbol_precedence_set freshSym 1 Assoc.undef_assoc 5 {}).1 ≠ freshSym ∧
    (symbol_precedence_set freshSym 1 Assoc.undef_assoc 5 {}).1.cls = SymClass.token_sym ∧
    freshSym.cls = SymClass.unknown_sym ∧
    (symbol_precedence_set freshSym 1 Assoc.undef_assoc 5 {}).1.number = some 0 ∧
    freshSym.number = none ∧
    (symbol_precedence_set freshSym 1 Assoc.undef_assoc 5 {}).2.ntokens = 1 ∧
    (PState.ntokens {}) = 0 := by
  refine ⟨?_, by decide, by decide, by decide, by decide, by decide, by decide⟩
  decide

/-- C3, amended.  `symbol_precedence_set sym prec undef_assoc loc` leaves
`prec`, `assoc` and `prec_location` untouched, but is otherwise exactly
`symbol_class_set sym token_sym loc false`: it still forces the class to
token (possibly assigning a token number, bumping `ntokens`, and complaining
if the symbol was a nonterminal). -/
theorem symbol_precedence_set_undef_is_class_set (sym : Symbol) (p : Nat)
    (loc : Nat) (st : PState) :
    symbol_precedence_set sym p Assoc.undef_assoc loc st =
      symbol_class_set sym SymClass.token_sym loc false st ∧
    (symbol_precedence_set sym p Assoc.undef_assoc loc st).1.prec = sym.prec ∧
    (symbol_precedence_set sym p Assoc.undef_assoc loc st).1.assoc = sym.assoc ∧
    (symbol_precedence_set sym p Assoc.undef_assoc loc st).1.prec_location =
      sym.prec_location := by
  have h : symbol_precedence_set sym p Assoc.undef_assoc loc st =
      symbol_class_set sym SymClass.token_sym loc false st := by
    simp [symbol_precedence_set]
  refine ⟨h, ?_, ?_, ?_⟩ <;>
    · rw [h]
      unfold symbol_class_set complain
      rcases sym with ⟨tag, tn, tl, num, pr, as, pl, utn, cls, status, al⟩
      cases cls <;> cases num <;> simp [apply_ite]

/-- C4, counterexample.  `symbol_class_set` does *not* leave an
already-defined number unchanged on a transition to nterm: a token owning
number 5 is renumbered from `nvars` (here to 0). -/
theorem symbol_class_set_overwrites_defined_number :
    tokSym5.number = some 5 ∧
    (symbol_class_set tokSym5 SymClass.nterm_sym 3 false {}).1.number = some 0 ∧
    (symbol_class_set tokSym5 SymClass.nterm_sym 3 false {}).1.number ≠ some 5 := by
  exact ⟨by decide, by decide, by decide⟩

/-- C4, amended.  Number assignment of `symbol_class_set`: *any* first
transition to nterm assigns `nvars` (post-incrementing), even when a number
was already defined; the first transition to token assigns `ntokens`
(post-incrementing) only when the number was undefined; in every other case
the number is unchanged. -/
theorem symbol_class_set_number_assignment (sym : Symbol) (c : SymClass)
    (loc : Nat) (d : Bool) (st : PState) :
    (symbol_class_set sym c loc d st).1.number =
      (if c = SymClass.nterm_sym ∧ sym.cls ≠ SymClass.nterm_sym then some st.nvars
       else if c = SymClass.token_sym ∧ sym.number = none then some st.ntokens
       else sym.number) ∧
    (symbol_class_set sym c loc d st).2.nvars =
      (if c = SymClass.nterm_sym ∧ sym.cls ≠ SymClass.nterm_sym then st.nvars + 1
       else st.nvars) ∧
    (symbol_class_set sym c loc d st).2.ntokens =
      (if c = SymClass.token_sym ∧ sym.number = none then st.ntokens + 1
       else st.ntokens) := by
  unfold symbol_class_set complain
  rcases sym with ⟨tag, tn, tl, num, pr, as, pl, utn, cls, status, al⟩
  cases cls <;> cases c <;> cases num <;> cases d <;> simp [apply_ite]

/-- C6, counterexample.  `symbol_user_token_number_set (s, 0, loc)`
decrements `ntokens` for *any* symbol whose number is defined — here a
nonterminal whose number 0 came from `nvars`, so no token slot was ever
consumed for it, yet `ntokens` drops from 5 to 4. -/
theorem symbol_user_token_number_set_zero_decrements_for_nterm :
    ntermSym0.cls = SymClass.nterm_sym ∧
    (symbol_user_token_number_set ntermSym0 none 0 9 { ntokens := 5 }).2.2.ntokens = 4 := by
  exact ⟨by decide, by decide⟩

/-- C6, amended.  `symbol_user_token_number_set (s, 0, loc)` makes `s` the
endtoken and forces `s.number` to 0; it decrements `ntokens` exactly when
`s.number` was already defined (whether or not the number had been drawn
from the `ntokens` counter). -/
theorem symbol_user_token_number_set_zero (sym : Symbol) (al : Option Symbol)
    (loc : Nat) (st : UtnState) :
    (symbol_user_token_number_set sym al 0 loc st).1.number = some 0 ∧
    (symbol_user_token_number_set sym al 0 loc st).2.2.endtoken =
      some (symbol_user_token_number_set sym al 0 loc st).1 ∧
    (symbol_user_token_number_set sym al 0 loc st).2.2.ntokens =
      (if sym.number = none then st.ntokens else st.ntokens - 1) := by
  unfold symbol_user_token_number_set
  by_cases hown : sym.user_token_number ≠ UserNum.hasStringAlias <;>
    by_cases hnum : sym.number = none <;>
      simp_all [apply_ite]

/-- C7.  `symbol_make_alias`: when either record already has an alias it
only appends one complaint and leaves the store untouched; otherwise it
links the two records symmetrically — each one's alias points at the other,
the numbers agree, the string side carries the identifier's user token
number, and the identifier side carries the has-string-alias sentinel. -/
theorem symbol_make_alias_spec (store : Nat → Symbol) (symId strId : Nat)
    (loc : Nat) (ds : List Diag) (hne : symId ≠ strId) :
    (((store strId).alias_ ≠ none ∨ (store symId).alias_ ≠ none) →
      (symbol_make_alias store symId strId loc ds).1 = store ∧
      ∃ d, (symbol_make_alias store symId strId loc ds).2 = ds ++ [d]) ∧
    ((store strId).alias_ = none → (store symId).alias_ = none →
      ((symbol_make_alias store symId strId loc ds).1 symId).alias_ = some strId ∧
      ((symbol_make_alias store symId strId loc ds).1 strId).alias_ = some symId ∧
      ((symbol_make_alias store symId strId loc ds).1 strId).number =
        ((symbol_make_alias store symId strId loc ds).1 symId).number ∧
      ((symbol_make_alias store symId strId loc ds).1 symId).number = (store symId).number ∧
      ((symbol_make_alias store symId strId loc ds).1 strId).user_token_number =
        (store symId).user_token_number ∧
      ((symbol_make_alias store symId strId loc ds).1 symId).user_token_number =
        UserNum.hasStringAlias ∧
      ((symbol_make_alias store symId strId loc ds).1 strId).cls = SymClass.token_sym) := by
  constructor
  · intro h
    unfold symbol_make_alias
    rcases h with h | h
    · simp [h]
    · by_cases hs : (store strId).alias_ = none <;> simp [hs, h]
  · intro hstr hsym
    unfold symbol_make_alias
    simp only [hstr, hsym, ne_eq, not_true_eq_false, if_false, ite_false]
    have hne2 : strId ≠ symId := fun h => hne h.symm
    unfold symbol_type_set
    cases (store symId).type_name <;> simp [hne, hne2]

/-- C7, witness: linking `IF` (number 2, user number 300) with `"if"`. -/
theorem symbol_make_alias_spec_witness :
    (0 : Nat) ≠ 1 ∧
    ((((aliasStore 1).alias_ ≠ none ∨ (aliasStore 0).alias_ ≠ none) →
      (symbol_make_alias aliasStore 0 1 7 []).1 = aliasStore ∧
      ∃ d, (symbol_make_alias aliasStore 0 1 7 []).2 = [] ++ [d]) ∧
     ((aliasStore 1).alias_ = none → (aliasStore 0).alias_ = none →
      ((symbol_make_alias aliasStore 0 1 7 []).1 0).alias_ = some 1 ∧
      ((symbol_make_alias aliasStore 0 1 7 []).1 1).alias_ = some 0 ∧
      ((symbol_make_alias aliasStore 0 1 7 []).1 1).number =
        ((symbol_make_alias aliasStore 0 1 7 []).1 0).number ∧
      ((symbol_make_alias aliasStore 0 1 7 []).1 0).number = (aliasStore 0).number ∧
      ((symbol_make_alias aliasStore 0 1 7 []).1 1).user_token_number =
        (aliasStore 0).user_token_number ∧
      ((symbol_make_alias aliasStore 0 1 7 []).1 0).user_token_number =
        UserNum.hasStringAlias ∧
      ((symbol_make_alias aliasStore 0 1 7 []).1 1).cls = SymClass.token_sym)) :=
  ⟨by decide, symbol_make_alias_spec aliasStore 0 1 7 [] (by decide)⟩

/-- C8, counterexample.  A second `symbol_type_set` does *not* skip the
mutation: the type name is overwritten (`INT` becomes `STR`), in addition to
the redeclaration complaint. -/
theorem symbol_type_set_overwrites :
    typedSym.type_name = some "INT" ∧
    (symbol_type_set typedSym (some "STR") 2 []).1.type_name = some "STR" ∧
    (symbol_type_set typedSym (some "STR") 2 []).1.type_name ≠ some "INT" := by
  exact ⟨by decide, by decide, by decide⟩

/-- C8, amended.  When the type is already set, a second `symbol_type_set`
with a non-null type emits the redeclaration complaint citing both locations,
and then still performs the mutation, overwriting `type_name` and
`type_location` with the new values. -/
theorem symbol_type_set_redeclaration (sym : Symbol) (t1 t2 : String)
    (l2 : Nat) (ds : List Diag) (h : sym.type_name = some t1) :
    (symbol_type_set sym (some t2) l2 ds).1.type_name = some t2 ∧
    (symbol_type_set sym (some t2) l2 ds).1.type_location = l2 ∧
    (symbol_type_set sym (some t2) l2 ds).2 =
      ds ++ symbol_redeclaration sym.tag "%type" sym.type_location l2 := by
  unfold symbol_type_set
  simp [h]

/-- C8, witness. -/
theorem symbol_type_set_redeclaration_witness :
    typedSym.type_name = some "INT" ∧
    ((symbol_type_set typedSym (some "STR") 2 []).1.type_name = some "STR" ∧
     (symbol_type_set typedSym (some "STR") 2 []).1.type_location = 2 ∧
     (symbol_type_set typedSym (some "STR") 2 []).2 =
       [] ++ symbol_redeclaration typedSym.tag "%type" typedSym.type_location 2) :=
  ⟨by decide, symbol_type_set_redeclaration typedSym "INT" "STR" 2 [] (by decide)⟩

/-- C9.  The color computation of `print_graph_link` can never produce
`green`, although the legend printed by `print_rel_dot_graph` promises
`green` for the case outdegree ≠ 1 ∧ indegree = 1: on that case the code
emits `red` instead. -/
theorem print_graph_link_never_green :
    (∀ tout hin : Nat, ∀ col : Bool, link_color tout hin col ≠ "green") ∧
    link_color 2 1 true = "red" ∧
    legend_color 2 1 = "green" := by
  refine ⟨?_, by decide, by decide⟩
  intro tout hin col
  unfold link_color
  split
  · split
    · split <;> decide
    · split <;> decide
  · decide

/-- C10.  Only the symbol store enforces the no-insertion-after-sorting
rule: a fresh key trips the `aver (!symbols_sorted)` assertion in
`symbol_from_uniqstr` once the sorted view exists, while
`semantic_type_from_uniqstr` checks nothing and always inserts a fresh key —
and `symbol_code_props_get`'s default lookup creates the default semantic
type `""` through `semantic_type_get` whenever it is absent. -/
theorem stores_sorted_insertion_asymmetry (st : SymTable) (ts : TypeTable)
    (key tkey tag : String)
    (hkey : key ∉ st.table) (hsorted : st.sorted ≠ none)
    (htkey : tkey ∉ ts.table.map TypeRec.tag)
    (hdefault : "" ∉ ts.table.map TypeRec.tag)
    (htag : tag.data.head? ≠ some '$') :
    symbol_from_uniqstr key st = none ∧
    (semantic_type_from_uniqstr tkey ts).1.table =
      ts.table ++ [{ tag := tkey, destructor_code := none, printer_code := none }] ∧
    (semantic_type_from_uniqstr tkey ts).2 = true ∧
    ((symbol_code_props_get tag none none false ts).2).table =
      ts.table ++ [{ tag := "", destructor_code := none, printer_code := none }] := by
  refine ⟨?_, ?_, ?_, ?_⟩
  · unfold symbol_from_uniqstr
    simp [hkey, hsorted]
  · unfold semantic_type_from_uniqstr
    simp [htkey]
  · unfold semantic_type_from_uniqstr
    simp [htkey]
  · unfold symbol_code_props_get semantic_type_get semantic_type_from_uniqstr
    simp [htag, hdefault]

/-- C10, witness. -/
theorem stores_sorted_insertion_asymmetry_witness :
    ("NEW" ∉ SymTable.table { table := ["a"], sorted := some ["a"] } ∧
     SymTable.sorted { table := ["a"], sorted := some ["a"] } ≠ none ∧
     "T" ∉ List.map TypeRec.tag (TypeTable.table { table := [], sorted := some [] }) ∧
     "" ∉ List.map TypeRec.tag (TypeTable.table { table := [], sorted := some [] }) ∧
     (String.data "FOO").head? ≠ some '$') ∧
    (symbol_from_uniqstr "NEW" { table := ["a"], sorted := some ["a"] } = none ∧
     (semantic_type_from_uniqstr "T" { table := [], sorted := some [] }).1.table =
       [] ++ [{ tag := "T", destructor_code := none, printer_code := none }] ∧
     (semantic_type_from_uniqstr "T" { table := [], sorted := some [] }).2 = true ∧
     ((symbol_code_props_get "FOO" none none false { table := [], sorted := some [] }).2).table =
       [] ++ [{ tag := "", destructor_code := none, printer_code := none }]) :=
  ⟨⟨by decide, by decide, by decide, by decide, by decide⟩,
   stores_sorted_insertion_asymmetry { table := ["a"], sorted := some ["a"] }
     { table := [], sorted := some [] } "NEW" "T" "FOO"
     (by decide) (by decide) (by decide) (by decide) (by decide)⟩

/-! ## Lemmas on the token-translation scans (for C5) -/

theorem natMax_def (a b : Nat) : Nat.max a b = if a ≤ b then b else a :=
  Nat.max_def

theorem natMax_absorb (a b : Nat) (h : a ≤ b) :
    Nat.max (Nat.max 256 a) b = Nat.max 256 b := by
  simp only [natMax_def]
  split_ifs <;> omega

theorem utn_max_step_eq (m : Nat) (s : Symbol) :
    utn_max_step m s = Nat.max m (utnv s) := by
  cases h : s.user_token_number <;>
    simp only [utn_max_step, utnv, h, natMax_def] <;>
    split_ifs <;> omega

theorem foldl_utn_max_shift : ∀ (l : List Symbol) (m : Nat),
    l.foldl utn_max_step m = Nat.max m (l.foldl utn_max_step 0)
  | [], m => by simp
  | s :: l, m => by
    simp only [List.foldl_cons]
    rw [foldl_utn_max_shift l (utn_max_step m s),
      foldl_utn_max_shift l (utn_max_step 0 s), utn_max_step_eq, utn_max_step_eq]
    simp only [natMax_def]
    split_ifs <;> omega

theorem foldl_utn_max_mono {l1 l2 : List Symbol}
    (hf : List.Forall₂ (fun a b => utnv a ≤ utnv b) l1 l2) :
    ∀ m1 m2 : Nat, m1 ≤ m2 →
      l1.foldl utn_max_step m1 ≤ l2.foldl utn_max_step m2 := by
  induction hf with
  | nil => intro m1 m2 h; simpa using h
  | cons hab htl ih =>
    intro m1 m2 h
    simp only [List.foldl_cons]
    refine ih _ _ ?_
    rw [utn_max_step_eq, utn_max_step_eq]
    simp only [natMax_def]
    split_ifs <;> omega

theorem assign_missing_snd : ∀ (l : List Symbol) (m : Nat),
    (assign_missing l m).2 = (assign_missing l m).1.foldl utn_max_step m
  | [], m => by simp [assign_missing]
  | s :: l, m => by
    by_cases h : s.user_token_number = UserNum.undef
    · have h2 : utn_max_step (m + 1) { s with user_token_number := UserNum.num (m + 1) } =
          utn_max_step m { s with user_token_number := UserNum.num (m + 1) } := by
        rw [utn_max_step_eq, utn_max_step_eq]
        have hv : utnv { s with user_token_number := UserNum.num (m + 1) } = m + 1 := by
          simp [utnv]
        rw [hv]
        simp only [natMax_def]
        split_ifs <;> omega
      simp only [assign_missing, h, if_true, ite_true, List.foldl_cons]
      rw [h2]
      exact assign_missing_snd l _
    · simp only [assign_missing, h, if_false, ite_false, List.foldl_cons]
      exact assign_missing_snd l _

theorem assign_missing_pointwise : ∀ (l : List Symbol) (m : Nat),
    List.Forall₂ (fun a b => utnv a ≤ utnv b) l (assign_missing l m).1
  | [], _ => by simp [assign_missing]
  | s :: l, m => by
    by_cases h : s.user_token_number = UserNum.undef
    · simp only [assign_missing, h, if_true, ite_true]
      exact List.Forall₂.cons (by simp [utnv, h]) (assign_missing_pointwise l _)
    · simp only [assign_missing, h, if_false, ite_false]
      exact List.Forall₂.cons (le_refl _) (assign_missing_pointwise l _)

theorem forall₂_utnv_le_set (l : List Symbol) (i : Nat) (a : Symbol)
    (hle : utnv (l.getD i default) ≤ utnv a) :
    List.Forall₂ (fun x y => utnv x ≤ utnv y) l (l.set i a) := by
  rw [List.forall₂_iff_get]
  refine ⟨by simp, fun j h1 h2 => ?_⟩
  by_cases hj : i = j
  · subst hj
    rw [List.getD_eq_getElem _ _ h1] at hle
    simp only [List.get_eq_getElem]
    rw [List.getElem_set_self]
    exact hle
  · simp only [List.get_eq_getElem]
    rw [List.getElem_set_of_ne hj]

theorem posix_pointwise (toks : List Symbol) (errIdx : Nat) :
    List.Forall₂ (fun a b => utnv a ≤ utnv b) toks (posix_error_step toks errIdx) := by
  unfold posix_error_step
  split
  · rename_i hc
    refine forall₂_utnv_le_set toks errIdx _ ?_
    unfold utnv
    rw [hc.2]
    simp
  · exact List.forall₂_same.mpr (fun x _ => le_refl (utnv x))

theorem posix_length (toks : List Symbol) (errIdx : Nat) :
    (posix_error_step toks errIdx).length = toks.length := by
  unfold posix_error_step
  split <;> simp

theorem posix_getD (toks : List Symbol) (errIdx : Nat) (h : errIdx < toks.length) :
    (posix_error_step toks errIdx).getD errIdx default =
      (if ¬ num_256_claimed toks = true ∧
          (toks.getD errIdx default).user_token_number = UserNum.undef then
        { toks.getD errIdx default with user_token_number := UserNum.num 256 }
      else toks.getD errIdx default) := by
  unfold posix_error_step
  split
  · rw [List.getD_eq_getElem _ _ (by simpa using h), List.getElem_set_self]
  · rfl

theorem assign_missing_getD : ∀ (l : List Symbol) (m i : Nat), i < l.length →
    ((l.getD i default).user_token_number ≠ UserNum.undef →
      (assign_missing l m).1.getD i default = l.getD i default) ∧
    ((l.getD i default).user_token_number = UserNum.undef →
      ∃ u, m < u ∧ (assign_missing l m).1.getD i default =
        { l.getD i default with user_token_number := UserNum.num u })
  | [], m, i => by intro h; simp at h
  | s :: l, m, 0 => by
    intro _
    by_cases h : s.user_token_number = UserNum.undef
    · exact ⟨fun hne => absurd h (by simpa using hne),
        fun _ => ⟨m + 1, Nat.lt_succ_self m, by simp [assign_missing, h]⟩⟩
    · exact ⟨fun _ => by simp [assign_missing, h],
        fun he => absurd (by simpa using he) h⟩
  | s :: l, m, i + 1 => by
    intro hlen
    have hlen2 : i < l.length := by simpa using hlen
    by_cases h : s.user_token_number = UserNum.undef
    · have hm2 : m ≤ utn_max_step (m + 1) { s with user_token_number := UserNum.num (m + 1) } := by
        rw [utn_max_step_eq]
        simp only [natMax_def]
        split_ifs <;> omega
      have hrec := assign_missing_getD l
        (utn_max_step (m + 1) { s with user_token_number := UserNum.num (m + 1) }) i hlen2
      simp only [assign_missing, h, if_true, ite_true, List.getD_cons_succ]
      exact ⟨hrec.1, fun he =>
        (hrec.2 he).elim (fun u hu => ⟨u, by omega, hu.2⟩)⟩
    · have hm2 : m ≤ utn_max_step m s := by
        rw [utn_max_step_eq]
        simp only [natMax_def]
        split_ifs <;> omega
      have hrec := assign_missing_getD l (utn_max_step m s) i hlen2
      simp only [assign_missing, h, if_false, ite_false, List.getD_cons_succ]
      exact ⟨hrec.1, fun he =>
        (hrec.2 he).elim (fun u hu => ⟨u, by omega, hu.2⟩)⟩

/-- C5.  After `symbols_token_translations_init`, `max_user_token_number`
equals the maximum of 256 and the user token numbers of all tokens (their
final values), and the error token's slot holds 256 exactly when either the
POSIX assignment fired (no token claimed 256 and the error token had no user
number) or the error token already claimed 256 itself. -/
theorem symbols_token_translations_init_spec (toks : List Symbol) (errIdx : Nat)
    (h : errIdx < toks.length) :
    (symbols_token_translations_init toks errIdx).2 =
      Nat.max 256 (collect_max (symbols_token_translations_init toks errIdx).1) ∧
    (((symbols_token_translations_init toks errIdx).1.getD errIdx default).user_token_number
        = UserNum.num 256 ↔
      ((num_256_claimed toks = false ∧
          (toks.getD errIdx default).user_token_number = UserNum.undef) ∨
        (toks.getD errIdx default).user_token_number = UserNum.num 256)) := by
  unfold symbols_token_translations_init
  have hm1 : (if collect_max toks < 256 then 256 else collect_max toks) =
      Nat.max 256 (collect_max toks) := by
    simp only [natMax_def]; split_ifs <;> omega
  rw [hm1]
  constructor
  · rw [assign_missing_snd, foldl_utn_max_shift]
    have h1 : collect_max toks ≤ collect_max (posix_error_step toks errIdx) :=
      foldl_utn_max_mono (posix_pointwise toks errIdx) 0 0 le_rfl
    have h2 : collect_max (posix_error_step toks errIdx) ≤
        collect_max ((assign_missing (posix_error_step toks errIdx)
          (Nat.max 256 (collect_max toks))).1) :=
      foldl_utn_max_mono
        (assign_missing_pointwise (posix_error_step toks errIdx) _) 0 0 le_rfl
    exact natMax_absorb _ _ (le_trans h1 h2)
  · have hlen2 : errIdx < (posix_error_step toks errIdx).length := by
      rw [posix_length]; exact h
    have hchar := assign_missing_getD (posix_error_step toks errIdx)
      (Nat.max 256 (collect_max toks)) errIdx hlen2
    have hpg := posix_getD toks errIdx h
    by_cases hc : ¬ num_256_claimed toks = true ∧
        (toks.getD errIdx default).user_token_number = UserNum.undef
    · rw [if_pos hc] at hpg
      have hkeep := hchar.1 (by rw [hpg]; simp)
      rw [hkeep, hpg]
      exact iff_of_true rfl (Or.inl ⟨by simpa using hc.1, hc.2⟩)
    · rw [if_neg hc] at hpg
      cases he : (toks.getD errIdx default).user_token_number with
      | undef =>
        have hcl : num_256_claimed toks = true := by
          by_contra hq
          exact hc ⟨hq, he⟩
        obtain ⟨u, hu, heq⟩ := hchar.2 (by rw [hpg]; exact he)
        rw [heq, hpg]
        constructor
        · intro hnum
          have hu256 : u = 256 := by
            have := congrArg (fun x => match x with
              | UserNum.num v => v
              | _ => 0) hnum
            simpa using this
          have h256 : 256 ≤ Nat.max 256 (collect_max toks) := by
            simp only [natMax_def]; split_ifs <;> omega
          omega
        · rintro (⟨hcl2, -⟩ | habs)
          · rw [hcl] at hcl2; cases hcl2
          · cases habs
      | hasStringAlias =>
        have hkeep := hchar.1 (by rw [hpg, he]; simp)
        rw [hkeep, hpg, he]
        constructor
        · intro hnum; cases hnum
        · rintro (⟨-, habs⟩ | habs) <;> cases habs
      | num u =>
        have hkeep := hchar.1 (by rw [hpg, he]; simp)
        rw [hkeep, hpg, he]
        constructor
        · intro hnum; exact Or.inr hnum
        · rintro (⟨-, habs⟩ | habs)
          · cases habs
          · exact habs

/-- C5, witness: the E4 scenario (user numbers 100, 200, 400; error token
unnumbered at index 3).  After the routine the error token's user number is
256 and `max_user_token_number` is 400. -/
theorem symbols_token_translations_init_spec_witness :
    (3 < E4toks.length) ∧
    ((symbols_token_translations_init E4toks 3).2 =
        Nat.max 256 (collect_max (symbols_token_translations_init E4toks 3).1) ∧
      (((symbols_token_translations_init E4toks 3).1.getD 3 default).user_token_number
          = UserNum.num 256 ↔
        ((num_256_claimed E4toks = false ∧
            (E4toks.getD 3 default).user_token_number = UserNum.undef) ∨
          (E4toks.getD 3 default).user_token_number = UserNum.num 256))) ∧
    (symbols_token_translations_init E4toks 3).2 = 400 ∧
    ((symbols_token_translations_init E4toks 3).1.getD 3 default).user_token_number
      = UserNum.num 256 :=
  ⟨by decide, symbols_token_translations_init_spec E4toks 3 (by decide),
   by decide, by decide⟩

/-! ## List helpers for the packing proofs (C2) -/

theorem getD_set_ne {α : Type} (L : List α) (q p : Nat) (v d : α) (h : q ≠ p) :
    (L.set q v).getD p d = L.getD p d := by
  by_cases hp : p < L.length
  · rw [List.getD_eq_getElem _ _ (by simpa using hp), List.getD_eq_getElem _ _ hp,
      List.getElem_set_of_ne h]
  · rw [List.getD_eq_default _ _ (by simpa using not_lt.mp hp),
      List.getD_eq_default _ _ (not_lt.mp hp)]

theorem getD_set_self {α : Type} (L : List α) (p : Nat) (v d : α)
    (h : p < L.length) : (L.set p v).getD p d = v := by
  rw [List.getD_eq_getElem _ _ (by simpa using h), List.getElem_set_self]

theorem getD_append_left {α : Type} (l1 l2 : List α) (n : Nat) (d : α)
    (h : n < l1.length) : (l1 ++ l2).getD n d = l1.getD n d := by
  rw [List.getD_eq_getElem _ _ (by simp; omega), List.getD_eq_getElem _ _ h,
    List.getElem_append_left]

theorem getD_append_last {α : Type} (l1 : List α) (x d : α) :
    (l1 ++ [x]).getD l1.length d = x := by
  rw [List.getD_eq_getElem _ _ (by simp)]
  rw [List.getElem_append_right (by omega)]
  simp

theorem reduceOption_length_add {α : Type} : ∀ L : List (Option α),
    L.reduceOption.length + L.countP (fun o => o.isNone) = L.length
  | [] => by simp
  | none :: L => by
    have ih := reduceOption_length_add L
    simp [List.reduceOption_cons_of_none]
    omega
  | some a :: L => by
    have ih := reduceOption_length_add L
    simp [List.reduceOption_cons_of_some]
    omega

theorem mem_getD_of_mem {α : Type} (L : List α) (a : α) (d : α) (h : a ∈ L) :
    ∃ p, p < L.length ∧ L.getD p d = a := by
  obtain ⟨n, hn, rfl⟩ := List.mem_iff_getElem.mp h
  exact ⟨n, hn, List.getD_eq_getElem _ _ hn⟩

theorem getD_mem {α : Type} (L : List α) (p : Nat) (d : α) (h : p < L.length) :
    L.getD p d ∈ L := by
  rw [List.getD_eq_getElem _ _ h]
  exact List.getElem_mem h

theorem reduceOption_nodup {α : Type} : ∀ L : List (Option α),
    (∀ p q a, L.getD p none = some a → L.getD q none = some a → p = q) →
    L.reduceOption.Nodup
  | [], _ => by simp
  | none :: L, h => by
    simp only [List.reduceOption_cons_of_none]
    exact reduceOption_nodup L (fun p q a hp hq => by
      have := h (p + 1) (q + 1) a (by simpa using hp) (by simpa using hq)
      omega)
  | some a :: L, h => by
    simp only [List.reduceOption_cons_of_some]
    refine List.Nodup.cons ?_ (reduceOption_nodup L (fun p q b hp hq => by
      have := h (p + 1) (q + 1) b (by simpa using hp) (by simpa using hq)
      omega))
    intro hmem
    have hmem2 : some a ∈ L := List.reduceOption_mem_iff.mp hmem
    obtain ⟨p, hp, hgd⟩ := mem_getD_of_mem L (some a) none hmem2
    have := h 0 (p + 1) a (by simp) (by simpa using hgd)
    omega

/-! ## The compaction loop: counters and survivor order (C2) -/

theorem compact_nsyms : ∀ (L : List (Option Nat)) (st : CompactState),
    (L.foldl compact_step st).nsyms = st.nsyms - L.countP (fun o => o.isNone)
  | [], st => by simp
  | none :: L, st => by
    rw [List.foldl_cons, compact_nsyms L _]
    simp [compact_step]
    omega
  | some i :: L, st => by
    rw [List.foldl_cons, compact_nsyms L _]
    simp [compact_step]

theorem compact_ntokens : ∀ (L : List (Option Nat)) (st : CompactState),
    (L.foldl compact_step st).ntokens = st.ntokens - L.countP (fun o => o.isNone)
  | [], st => by simp
  | none :: L, st => by
    rw [List.foldl_cons, compact_ntokens L _]
    simp [compact_step]
    omega
  | some i :: L, st => by
    rw [List.foldl_cons, compact_ntokens L _]
    simp [compact_step]

theorem compact_out : ∀ (L : List (Option Nat)) (st : CompactState),
    (L.foldl compact_step st).out = st.out ++ L.reduceOption
  | [], st => by simp
  | none :: L, st => by
    rw [List.foldl_cons, compact_out L _]
    simp [compact_step, List.reduceOption_cons_of_none]
  | some i :: L, st => by
    rw [List.foldl_cons, compact_out L _]
    simp [compact_step, List.reduceOption_cons_of_some]

/-! ## The placement phase of `symbols_pack` (C2) -/

theorem symbol_pack_fst (ntk : Nat) (acc : (Nat → PackSym) × List (Option Nat))
    (i j : Nat) :
    (symbol_pack ntk acc i).1 j =
      (if j = i ∧ (acc.1 i).cls = SymClass.nterm_sym then
        { acc.1 i with number := (acc.1 i).number + ntk }
      else acc.1 j) := by
  unfold symbol_pack store_set_number
  by_cases hc : (acc.1 i).cls = SymClass.nterm_sym <;>
    by_cases hu : (acc.1 i).user_token_number = UserNum.hasStringAlias <;>
      by_cases hj : j = i <;>
        simp [hc, hu, hj]

theorem symbol_pack_snd (ntk : Nat) (acc : (Nat → PackSym) × List (Option Nat))
    (i : Nat) :
    (symbol_pack ntk acc i).2 =
      (if (acc.1 i).cls = SymClass.nterm_sym then
        acc.2.set ((acc.1 i).number + ntk) (some i)
      else if (acc.1 i).user_token_number = UserNum.hasStringAlias then acc.2
      else acc.2.set (acc.1 i).number (some i)) := by
  unfold symbol_pack
  by_cases hc : (acc.1 i).cls = SymClass.nterm_sym <;>
    by_cases hu : (acc.1 i).user_token_number = UserNum.hasStringAlias <;>
      simp [hc, hu]

theorem symbol_pack_snd_length (ntk : Nat) (acc : (Nat → PackSym) × List (Option Nat))
    (i : Nat) : (symbol_pack ntk acc i).2.length = acc.2.length := by
  rw [symbol_pack_snd]
  split_ifs <;> simp

theorem place_arr_length (ntk : Nat) : ∀ (l : List Nat)
    (acc : (Nat → PackSym) × List (Option Nat)),
    (List.foldl (symbol_pack ntk) acc l).2.length = acc.2.length
  | [], _ => rfl
  | i :: l, acc => by
    rw [List.foldl_cons, place_arr_length ntk l _, symbol_pack_snd_length]

theorem place_store_char (ntk : Nat) : ∀ (l : List Nat)
    (acc : (Nat → PackSym) × List (Option Nat)), l.Nodup → ∀ j,
    (List.foldl (symbol_pack ntk) acc l).1 j =
      (if j ∈ l ∧ (acc.1 j).cls = SymClass.nterm_sym then
        { acc.1 j with number := (acc.1 j).number + ntk }
      else acc.1 j)
  | [], acc, _, j => by simp
  | i :: l, acc, hnd, j => by
    have hil : i ∉ l := (List.nodup_cons.mp hnd).1
    have hndl : l.Nodup := (List.nodup_cons.mp hnd).2
    rw [List.foldl_cons, place_store_char ntk l (symbol_pack ntk acc i) hndl j]
    by_cases hj : j = i
    · subst hj
      have hclspres : ((symbol_pack ntk acc j).1 j).cls = (acc.1 j).cls := by
        rw [symbol_pack_fst]
        by_cases hc : (acc.1 j).cls = SymClass.nterm_sym <;> simp [hc]
      simp only [hil, false_and, if_false, ite_false, hclspres]
      rw [symbol_pack_fst]
      by_cases hc : (acc.1 j).cls = SymClass.nterm_sym <;>
        simp [hc, List.mem_cons]
    · have hpres : (symbol_pack ntk acc i).1 j = acc.1 j := by
        rw [symbol_pack_fst]
        simp [hj]
      rw [hpres]
      simp [List.mem_cons, hj]

theorem place_arr_frame (ntk : Nat) : ∀ (l : List Nat)
    (acc : (Nat → PackSym) × List (Option Nat)) (p : Nat), l.Nodup →
    (∀ j ∈ l, (acc.1 j).cls = SymClass.nterm_sym → (acc.1 j).number + ntk ≠ p) →
    (∀ j ∈ l, (acc.1 j).cls ≠ SymClass.nterm_sym →
      (acc.1 j).user_token_number ≠ UserNum.hasStringAlias → (acc.1 j).number ≠ p) →
    (List.foldl (symbol_pack ntk) acc l).2.getD p none = acc.2.getD p none
  | [], _, _, _, _, _ => rfl
  | i :: l, acc, p, hnd, h1, h2 => by
    have hil : i ∉ l := (List.nodup_cons.mp hnd).1
    have hndl : l.Nodup := (List.nodup_cons.mp hnd).2
    have hpres : ∀ j ∈ l, (symbol_pack ntk acc i).1 j = acc.1 j := by
      intro j hj
      have hne : j ≠ i := fun h => hil (h ▸ hj)
      rw [symbol_pack_fst]
      simp [hne]
    rw [List.foldl_cons,
      place_arr_frame ntk l (symbol_pack ntk acc i) p hndl
        (fun j hj => by rw [hpres j hj]; exact h1 j (List.mem_cons_of_mem i hj))
        (fun j hj => by rw [hpres j hj]; exact h2 j (List.mem_cons_of_mem i hj))]
    rw [symbol_pack_snd]
    split_ifs with hc hu
    · exact getD_set_ne _ _ _ _ _ (h1 i (List.mem_cons_self i l) hc)
    · rfl
    · exact getD_set_ne _ _ _ _ _ (h2 i (List.mem_cons_self i l) hc hu)

theorem place_arr_hit (store : Nat → PackSym) (ntk : Nat) : ∀ (l : List Nat)
    (acc : (Nat → PackSym) × List (Option Nat)) (i : Nat), l.Nodup → i ∈ l →
    (∀ j ∈ l, acc.1 j = store j) →
    placedP store i →
    pack_pos store ntk i < acc.2.length →
    (∀ j ∈ l, placedP store j →
      pack_pos store ntk j = pack_pos store ntk i → j = i) →
    (List.foldl (symbol_pack ntk) acc l).2.getD (pack_pos store ntk i) none = some i
  | [], _, i, _, hmem, _, _, _, _ => absurd hmem (List.not_mem_nil i)
  | j :: l, acc, i, hnd, hmem, hacc, hplaced, hbound, hinj => by
    have hjl : j ∉ l := (List.nodup_cons.mp hnd).1
    have hndl : l.Nodup := (List.nodup_cons.mp hnd).2
    have hpres : ∀ q ∈ l, (symbol_pack ntk acc j).1 q = acc.1 q := by
      intro q hq
      have hne : q ≠ j := fun h => hjl (h ▸ hq)
      rw [symbol_pack_fst]
      simp [hne]
    rcases List.mem_cons.mp hmem with hij | hil
    · subst hij
      have hacci : acc.1 i = store i := hacc i (List.mem_cons_self i l)
      have hwrite : (symbol_pack ntk acc i).2.getD (pack_pos store ntk i) none = some i := by
        rw [symbol_pack_snd, hacci]
        by_cases hc : (store i).cls = SymClass.nterm_sym
        · rw [if_pos hc]
          have hpos : pack_pos store ntk i = (store i).number + ntk := by
            unfold pack_pos
            rw [if_pos hc]
          rw [hpos]
          exact getD_set_self _ _ _ _ (by rw [← hpos]; exact hbound)
        · have hu : (store i).user_token_number ≠ UserNum.hasStringAlias := by
            rcases hplaced with h | h
            · exact absurd h hc
            · exact h
          rw [if_neg hc, if_neg hu]
          have hpos : pack_pos store ntk i = (store i).number := by
            unfold pack_pos
            rw [if_neg hc]
          rw [hpos]
          exact getD_set_self _ _ _ _ (by rw [← hpos]; exact hbound)
      rw [List.foldl_cons,
        place_arr_frame ntk l (symbol_pack ntk acc i) (pack_pos store ntk i) hndl
          (fun q hq hcq hpq => by
            rw [hpres q hq, hacc q (List.mem_cons_of_mem i hq)] at hcq hpq
            have hq2 : pack_pos store ntk q = pack_pos store ntk i := by
              unfold pack_pos
              rw [if_pos hcq]
              exact hpq
            exact hjl (hinj q (List.mem_cons_of_mem i hq) (Or.inl hcq) hq2 ▸ hq))
          (fun q hq hcq huq hpq => by
            rw [hpres q hq, hacc q (List.mem_cons_of_mem i hq)] at hcq huq hpq
            have hq2 : pack_pos store ntk q = pack_pos store ntk i := by
              unfold pack_pos
              rw [if_neg hcq]
              exact hpq
            exact hjl (hinj q (List.mem_cons_of_mem i hq) (Or.inr huq) hq2 ▸ hq))]
      exact hwrite
    · rw [List.foldl_cons]
      exact place_arr_hit store ntk l (symbol_pack ntk acc j) i hndl hil
        (fun q hq => by rw [hpres q hq]; exact hacc q (List.mem_cons_of_mem j hq))
        hplaced
        (by rw [symbol_pack_snd_length]; exact hbound)
        (fun q hq => hinj q (List.mem_cons_of_mem j hq))

theorem place_arr_sound (store : Nat → PackSym) (ntk : Nat) : ∀ (l : List Nat)
    (acc : (Nat → PackSym) × List (Option Nat)) (p i : Nat), l.Nodup →
    (∀ j ∈ l, acc.1 j = store j) →
    (List.foldl (symbol_pack ntk) acc l).2.getD p none = some i →
    acc.2.getD p none = some i ∨
      (i ∈ l ∧ placedP store i ∧ pack_pos store ntk i = p)
  | [], _, _, _, _, _, hres => Or.inl hres
  | j :: l, acc, p, i, hnd, hacc, hres => by
    have hjl : j ∉ l := (List.nodup_cons.mp hnd).1
    have hndl : l.Nodup := (List.nodup_cons.mp hnd).2
    have hpres : ∀ q ∈ l, (symbol_pack ntk acc j).1 q = acc.1 q := by
      intro q hq
      have hne : q ≠ j := fun h => hjl (h ▸ hq)
      rw [symbol_pack_fst]
      simp [hne]
    rw [List.foldl_cons] at hres
    rcases place_arr_sound store ntk l (symbol_pack ntk acc j) p i hndl
        (fun q hq => by rw [hpres q hq]; exact hacc q (List.mem_cons_of_mem j hq))
        hres with hres2 | ⟨hmem, hpl, hpos⟩
    · rw [symbol_pack_snd, hacc j (List.mem_cons_self j l)] at hres2
      by_cases hc : (store j).cls = SymClass.nterm_sym
      · rw [if_pos hc] at hres2
        by_cases hpj : (store j).number + ntk = p
        · by_cases hlen : p < acc.2.length
          · rw [← hpj, getD_set_self _ _ _ _ (by omega)] at hres2
            have hij : j = i := Option.some.inj hres2
            subst hij
            refine Or.inr ⟨List.mem_cons_self j l, Or.inl hc, ?_⟩
            unfold pack_pos
            rw [if_pos hc]
            exact hpj
          · rw [List.set_eq_of_length_le (by omega)] at hres2
            exact Or.inl hres2
        · rw [getD_set_ne _ _ _ _ _ hpj] at hres2
          exact Or.inl hres2
      · by_cases hu : (store j).user_token_number = UserNum.hasStringAlias
        · rw [if_neg hc, if_pos hu] at hres2
          exact Or.inl hres2
        · rw [if_neg hc, if_neg hu] at hres2
          by_cases hpj : (store j).number = p
          · by_cases hlen : p < acc.2.length
            · rw [← hpj, getD_set_self _ _ _ _ (by omega)] at hres2
              have hij : j = i := Option.some.inj hres2
              subst hij
              refine Or.inr ⟨List.mem_cons_self j l, Or.inr hu, ?_⟩
              unfold pack_pos
              rw [if_neg hc]
              exact hpj
            · rw [List.set_eq_of_length_le (by omega)] at hres2
              exact Or.inl hres2
          · rw [getD_set_ne _ _ _ _ _ hpj] at hres2
            exact Or.inl hres2
    · exact Or.inr ⟨List.mem_cons_of_mem j hmem, hpl, hpos⟩

/-! ## The compaction loop: renumbering invariants (C2) -/

theorem store_set_number_apply (store : Nat → PackSym) (i v j : Nat) :
    store_set_number store i v j =
      (if j = i then { store i with number := v } else store j) := by
  unfold store_set_number
  by_cases h : j = i <;> simp [h]

theorem store_set_number_fields (store : Nat → PackSym) (i v j : Nat) :
    (store_set_number store i v j).cls = (store j).cls ∧
    (store_set_number store i v j).alias_ = (store j).alias_ ∧
    (store_set_number store i v j).user_token_number = (store j).user_token_number := by
  rw [store_set_number_apply]
  by_cases h : j = i <;> simp [h]

theorem store_set_number_ne (store : Nat → PackSym) (i v j : Nat) (h : j ≠ i) :
    store_set_number store i v j = store j := by
  rw [store_set_number_apply, if_neg h]

theorem store_set_number_self (store : Nat → PackSym) (i v : Nat) :
    (store_set_number store i v i).number = v := by
  rw [store_set_number_apply, if_pos rfl]

theorem compact_step_some_none (st : CompactState) (i : Nat)
    (hal : (st.store i).alias_ = none) :
    compact_step st (some i) =
      { st with store := store_set_number st.store i st.out.length,
                out := st.out ++ [i] } := by
  have h1 : (store_set_number st.store i st.out.length i).alias_ =
      (st.store i).alias_ := (store_set_number_fields st.store i st.out.length i).2.1
  simp only [compact_step]
  rw [h1, hal]

theorem compact_step_some_some (st : CompactState) (i a : Nat)
    (hal : (st.store i).alias_ = some a) :
    compact_step st (some i) =
      { st with store := store_set_number
                  (store_set_number st.store i st.out.length) a st.out.length,
                out := st.out ++ [i] } := by
  have h1 : (store_set_number st.store i st.out.length i).alias_ =
      (st.store i).alias_ := (store_set_number_fields st.store i st.out.length i).2.1
  simp only [compact_step]
  rw [h1, hal]

theorem not_placed_of_skip_shape (store : Nat → PackSym) (a : Nat)
    (h1 : (store a).cls ≠ SymClass.nterm_sym)
    (h2 : (store a).user_token_number = UserNum.hasStringAlias) :
    ¬ placedP store a := by
  rintro (h | h)
  · exact h1 h
  · exact h h2

theorem compact_invariants (store : Nat → PackSym) (order : List Nat)
    (H9 : ∀ i ∈ order, placedP store i → ∀ a, (store i).alias_ = some a →
      (store a).cls ≠ SymClass.nterm_sym ∧
      (store a).user_token_number = UserNum.hasStringAlias)
    (H10 : ∀ i ∈ order, ∀ j ∈ order, placedP store i → placedP store j → ∀ a,
      (store i).alias_ = some a → (store j).alias_ = some a → i = j) :
    ∀ (L : List (Option Nat)) (st : CompactState),
    (∀ i, some i ∈ L → i ∈ order ∧ placedP store i) →
    L.reduceOption.Nodup →
    (∀ i, some i ∈ L → i ∉ st.out) →
    (∀ i ∈ st.out, i ∈ order ∧ placedP store i) →
    (∀ j, (st.store j).cls = (store j).cls ∧ (st.store j).alias_ = (store j).alias_ ∧
      (st.store j).user_token_number = (store j).user_token_number) →
    (∀ w, w < st.out.length → (st.store (st.out.getD w 0)).number = w) →
    (∀ w, w < st.out.length → ∀ a, (st.store (st.out.getD w 0)).alias_ = some a →
      (st.store a).number = w) →
    ((∀ j, ((L.foldl compact_step st).store j).cls = (store j).cls ∧
        ((L.foldl compact_step st).store j).alias_ = (store j).alias_ ∧
        ((L.foldl compact_step st).store j).user_token_number =
          (store j).user_token_number) ∧
      (∀ w, w < (L.foldl compact_step st).out.length →
        ((L.foldl compact_step st).store
          ((L.foldl compact_step st).out.getD w 0)).number = w) ∧
      (∀ w, w < (L.foldl compact_step st).out.length → ∀ a,
        ((L.foldl compact_step st).store
          ((L.foldl compact_step st).out.getD w 0)).alias_ = some a →
        ((L.foldl compact_step st).store a).number = w))
  | [], st, _, _, _, _, hinv3, hinv1, hinv2 => ⟨hinv3, hinv1, hinv2⟩
  | none :: L, st, hids, hnd, hdisj, hout, hinv3, hinv1, hinv2 => by
    rw [List.foldl_cons]
    have hnd2 : L.reduceOption.Nodup := by
      rw [List.reduceOption_cons_of_none] at hnd
      exact hnd
    exact compact_invariants store order H9 H10 L _
      (fun i hi => hids i (List.mem_cons_of_mem none hi)) hnd2
      (fun i hi => hdisj i (List.mem_cons_of_mem none hi))
      hout hinv3 hinv1 hinv2
  | some i :: L, st, hids, hnd, hdisj, hout, hinv3, hinv1, hinv2 => by
    rw [List.foldl_cons]
    have hii := hids i (List.mem_cons_self (some i) L)
    have hnotout : i ∉ st.out := hdisj i (List.mem_cons_self (some i) L)
    have hnd2 : L.reduceOption.Nodup ∧ i ∉ L.reduceOption := by
      rw [List.reduceOption_cons_of_some] at hnd
      exact ⟨(List.nodup_cons.mp hnd).2, (List.nodup_cons.mp hnd).1⟩
    have hialias : (st.store i).alias_ = (store i).alias_ := (hinv3 i).2.1
    -- facts about the eventual alias target
    cases hal : (store i).alias_ with
    | none =>
      have hstep := compact_step_some_none st i (by rw [hialias, hal])
      have hsto : (compact_step st (some i)).store =
          store_set_number st.store i st.out.length := by rw [hstep]
      have houtn : (compact_step st (some i)).out = st.out ++ [i] := by rw [hstep]
      refine compact_invariants store order H9 H10 L (compact_step st (some i))
        ?_ hnd2.1 ?_ ?_ ?_ ?_ ?_
      · exact fun q hq => hids q (List.mem_cons_of_mem (some i) hq)
      · rw [houtn]
        intro q hq
        simp only [List.mem_append, List.mem_singleton]
        rintro (hq2 | rfl)
        · exact hdisj q (List.mem_cons_of_mem (some i) hq) hq2
        · exact hnd2.2 (List.reduceOption_mem_iff.mpr hq)
      · rw [houtn]
        intro q hq
        rcases List.mem_append.mp hq with hq2 | hq2
        · exact hout q hq2
        · rw [List.mem_singleton] at hq2
          exact hq2 ▸ hii
      · rw [hsto]
        intro j
        have := store_set_number_fields st.store i st.out.length j
        exact ⟨this.1.trans (hinv3 j).1, this.2.1.trans (hinv3 j).2.1,
          this.2.2.trans (hinv3 j).2.2⟩
      · rw [hsto, houtn]
        intro w hw
        simp only [List.length_append, List.length_singleton] at hw
        by_cases hwl : w < st.out.length
        · rw [getD_append_left _ _ _ _ hwl]
          have ho : st.out.getD w 0 ∈ st.out := getD_mem _ _ _ hwl
          have hne : st.out.getD w 0 ≠ i := fun h => hnotout (h ▸ ho)
          rw [store_set_number_ne _ _ _ _ hne]
          exact hinv1 w hwl
        · have hw2 : w = st.out.length := by omega
          subst hw2
          rw [getD_append_last]
          exact store_set_number_self _ _ _
      · rw [hsto, houtn]
        intro w hw a ha
        simp only [List.length_append, List.length_singleton] at hw
        by_cases hwl : w < st.out.length
        · rw [getD_append_left _ _ _ _ hwl] at ha
          have ho : st.out.getD w 0 ∈ st.out := getD_mem _ _ _ hwl
          have hne : st.out.getD w 0 ≠ i := fun h => hnotout (h ▸ ho)
          rw [store_set_number_ne _ _ _ _ hne] at ha
          -- a is an alias target of an old survivor: a is a skip record, a ≠ i
          have hoalias : (store (st.out.getD w 0)).alias_ = some a := by
            rw [← (hinv3 (st.out.getD w 0)).2.1]
            exact ha
          have hshape := H9 (st.out.getD w 0) (hout _ ho).1 (hout _ ho).2 a hoalias
          have hane : a ≠ i := fun h =>
            not_placed_of_skip_shape store a hshape.1 hshape.2 (h ▸ hii.2)
          rw [store_set_number_ne _ _ _ _ hane]
          exact hinv2 w hwl a ha
        · have hw2 : w = st.out.length := by omega
          subst hw2
          rw [getD_append_last] at ha
          -- the new element i has no alias in this branch
          have : (store_set_number st.store i st.out.length i).alias_ = none := by
            rw [(store_set_number_fields st.store i st.out.length i).2.1, hialias, hal]
          rw [this] at ha
          cases ha
    | some a =>
      have hstep := compact_step_some_some st i a (by rw [hialias, hal])
      have hsto : (compact_step st (some i)).store = store_set_number
          (store_set_number st.store i st.out.length) a st.out.length := by rw [hstep]
      have houtn : (compact_step st (some i)).out = st.out ++ [i] := by rw [hstep]
      have hshape := H9 i hii.1 hii.2 a hal
      have hanp : ¬ placedP store a := not_placed_of_skip_shape store a hshape.1 hshape.2
      have hane : a ≠ i := fun h => hanp (h ▸ hii.2)
      have hanotout : a ∉ st.out := fun h => hanp (hout a h).2
      refine compact_invariants store order H9 H10 L (compact_step st (some i))
        ?_ hnd2.1 ?_ ?_ ?_ ?_ ?_
      · exact fun q hq => hids q (List.mem_cons_of_mem (some i) hq)
      · rw [houtn]
        intro q hq
        simp only [List.mem_append, List.mem_singleton]
        rintro (hq2 | rfl)
        · exact hdisj q (List.mem_cons_of_mem (some i) hq) hq2
        · exact hnd2.2 (List.reduceOption_mem_iff.mpr hq)
      · rw [houtn]
        intro q hq
        rcases List.mem_append.mp hq with hq2 | hq2
        · exact hout q hq2
        · rw [List.mem_singleton] at hq2
          exact hq2 ▸ hii
      · rw [hsto]
        intro j
        have h1 := store_set_number_fields
          (store_set_number st.store i st.out.length) a st.out.length j
        have h2 := store_set_number_fields st.store i st.out.length j
        exact ⟨h1.1.trans (h2.1.trans (hinv3 j).1),
          h1.2.1.trans (h2.2.1.trans (hinv3 j).2.1),
          h1.2.2.trans (h2.2.2.trans (hinv3 j).2.2)⟩
      · rw [hsto, houtn]
        intro w hw
        simp only [List.length_append, List.length_singleton] at hw
        by_cases hwl : w < st.out.length
        · rw [getD_append_left _ _ _ _ hwl]
          have ho : st.out.getD w 0 ∈ st.out := getD_mem _ _ _ hwl
          have hne : st.out.getD w 0 ≠ i := fun h => hnotout (h ▸ ho)
          have hnea : st.out.getD w 0 ≠ a := fun h => hanotout (h ▸ ho)
          rw [store_set_number_ne _ _ _ _ hnea, store_set_number_ne _ _ _ _ hne]
          exact hinv1 w hwl
        · have hw2 : w = st.out.length := by omega
          subst hw2
          rw [getD_append_last]
          rw [store_set_number_ne _ _ _ _ (fun h => hane h.symm)]
          exact store_set_number_self _ _ _
      · rw [hsto, houtn]
        intro w hw b hb
        simp only [List.length_append, List.length_singleton] at hw
        by_cases hwl : w < st.out.length
        · rw [getD_append_left _ _ _ _ hwl] at hb
          have ho : st.out.getD w 0 ∈ st.out := getD_mem _ _ _ hwl
          have hne : st.out.getD w 0 ≠ i := fun h => hnotout (h ▸ ho)
          have hnea : st.out.getD w 0 ≠ a := fun h => hanotout (h ▸ ho)
          rw [store_set_number_ne _ _ _ _ hnea, store_set_number_ne _ _ _ _ hne] at hb
          have hoalias : (store (st.out.getD w 0)).alias_ = some b := by
            rw [← (hinv3 (st.out.getD w 0)).2.1]
            exact hb
          have hshapeb := H9 (st.out.getD w 0) (hout _ ho).1 (hout _ ho).2 b hoalias
          have hbne : b ≠ i := fun h =>
            not_placed_of_skip_shape store b hshapeb.1 hshapeb.2 (h ▸ hii.2)
          have hbnea : b ≠ a := by
            intro h
            subst h
            exact hne (H10 (st.out.getD w 0) (hout _ ho).1 i hii.1
              (hout _ ho).2 hii.2 b hoalias hal)
          rw [store_set_number_ne _ _ _ _ hbnea, store_set_number_ne _ _ _ _ hbne]
          exact hinv2 w hwl b hb
        · have hw2 : w = st.out.length := by omega
          subst hw2
          rw [getD_append_last] at hb
          have : (store_set_number (store_set_number st.store i st.out.length) a
              st.out.length i).alias_ = some a := by
            rw [(store_set_number_fields _ a st.out.length i).2.1,
              (store_set_number_fields st.store i st.out.length i).2.1, hialias, hal]
          rw [this] at hb
          have hba : b = a := (Option.some.inj hb).symm
          subst hba
          exact store_set_number_self _ _ _

theorem getD_append_right {α : Type} (l1 l2 : List α) (w : Nat) (d : α)
    (h : l1.length ≤ w) : (l1 ++ l2).getD w d = l2.getD (w - l1.length) d := by
  by_cases h2 : w < l1.length + l2.length
  · rw [List.getD_eq_getElem _ _ (by simp; omega),
      List.getD_eq_getElem _ _ (by omega)]
    rw [List.getElem_append_right h]
  · rw [List.getD_eq_default _ _ (by simp; omega),
      List.getD_eq_default _ _ (by omega)]

theorem getD_replicate_none {α : Type} (n p : Nat) :
    (List.replicate n (none : Option α)).getD p none = none := by
  by_cases h : p < n
  · rw [List.getD_eq_getElem _ _ (by simpa using h), List.getElem_replicate]
  · rw [List.getD_eq_default _ _ (by simpa using not_lt.mp h)]

/-- C2.  `symbols_pack` (placement by `symbol_pack`, then the compaction
sweep), run from a well-formed pre-pack state: token numbers below
`ntokens`, nonterminal numbers below `nvars` and covering `[0, nvars)`,
distinct final positions, `nsyms = ntokens + nvars` (each record consumed
one counter slot), survivors' aliases being skip records with distinct
targets.  Then the compaction decrements `nsyms` and `ntokens` once per
empty slot, the packed symbols' numbers are exactly `0, …, nsyms-1` in
order (a bijection), tokens occupy exactly the prefix `[0, ntokens)` (and
nonterminals the suffix `[ntokens, nsyms)`), and each surviving symbol and
its alias, if any, are renumbered to the write index. -/
theorem symbols_pack_spec (store : Nat → PackSym) (order : List Nat)
    (nsyms ntokens nvars : Nat)
    (H1 : order.length = nsyms)
    (H2 : order.Nodup)
    (H3 : nsyms = ntokens + nvars)
    (H4 : ∀ i ∈ order, (store i).cls ≠ SymClass.unknown_sym)
    (H5 : ∀ i ∈ order, (store i).cls = SymClass.token_sym →
      (store i).user_token_number ≠ UserNum.hasStringAlias →
      (store i).number < ntokens)
    (H6 : ∀ i ∈ order, (store i).cls = SymClass.nterm_sym →
      (store i).number < nvars)
    (H7 : ∀ i ∈ order, ∀ j ∈ order, placedP store i → placedP store j →
      pack_pos store ntokens i = pack_pos store ntokens j → i = j)
    (H8 : ∀ v, v < nvars → ∃ i, i ∈ order ∧
      (store i).cls = SymClass.nterm_sym ∧ (store i).number = v)
    (H9 : ∀ i ∈ order, placedP store i → ∀ a, (store i).alias_ = some a →
      (store a).cls ≠ SymClass.nterm_sym ∧
      (store a).user_token_number = UserNum.hasStringAlias)
    (H10 : ∀ i ∈ order, ∀ j ∈ order, placedP store i → placedP store j →
      ∀ a, (store i).alias_ = some a → (store j).alias_ = some a → i = j) :
    (symbols_pack_run store order nsyms ntokens).nsyms +
        (symbols_place store order nsyms ntokens).2.countP (fun o => o.isNone) =
      nsyms ∧
    (symbols_pack_run store order nsyms ntokens).ntokens +
        (symbols_place store order nsyms ntokens).2.countP (fun o => o.isNone) =
      ntokens ∧
    (symbols_pack_run store order nsyms ntokens).out.length =
      (symbols_pack_run store order nsyms ntokens).nsyms ∧
    (symbols_pack_run store order nsyms ntokens).out.map
        (fun i => ((symbols_pack_run store order nsyms ntokens).store i).number) =
      List.range (symbols_pack_run store order nsyms ntokens).nsyms ∧
    (∀ w, w < (symbols_pack_run store order nsyms ntokens).out.length →
      (((symbols_pack_run store order nsyms ntokens).store
          ((symbols_pack_run store order nsyms ntokens).out.getD w 0)).cls =
            SymClass.token_sym ↔
        w < (symbols_pack_run store order nsyms ntokens).ntokens)) ∧
    (∀ w, w < (symbols_pack_run store order nsyms ntokens).out.length → ∀ a,
      ((symbols_pack_run store order nsyms ntokens).store
        ((symbols_pack_run store order nsyms ntokens).out.getD w 0)).alias_ =
          some a →
      ((symbols_pack_run store order nsyms ntokens).store a).number = w) := by
  have hntleq : ntokens ≤ nsyms := by omega
  have hlenarr : (symbols_place store order nsyms ntokens).2.length = nsyms := by
    unfold symbols_place
    rw [place_arr_length]
    simp
  have hbound : ∀ i ∈ order, placedP store i →
      pack_pos store ntokens i < nsyms := by
    intro i hi hp
    unfold pack_pos
    by_cases hc : (store i).cls = SymClass.nterm_sym
    · rw [if_pos hc]
      have := H6 i hi hc
      omega
    · rw [if_neg hc]
      have hu : (store i).user_token_number ≠ UserNum.hasStringAlias := by
        rcases hp with h | h
        · exact absurd h hc
        · exact h
      have htok : (store i).cls = SymClass.token_sym := by
        cases hcls : (store i).cls
        · exact absurd hcls (H4 i hi)
        · rfl
        · exact absurd hcls hc
      have := H5 i hi htok hu
      omega
  have hhit : ∀ i ∈ order, placedP store i →
      (symbols_place store order nsyms ntokens).2.getD
        (pack_pos store ntokens i) none = some i := by
    intro i hi hp
    unfold symbols_place
    exact place_arr_hit store ntokens order (store, List.replicate nsyms none) i
      H2 hi (fun j _ => rfl) hp (by simpa using hbound i hi hp)
      (fun j hj hpj => H7 j hj i hi hpj hp)
  have hsound : ∀ p i,
      (symbols_place store order nsyms ntokens).2.getD p none = some i →
      i ∈ order ∧ placedP store i ∧ pack_pos store ntokens i = p := by
    intro p i hres
    unfold symbols_place at hres
    rcases place_arr_sound store ntokens order (store, List.replicate nsyms none)
        p i H2 (fun j _ => rfl) hres with habs | hok
    · rw [getD_replicate_none] at habs
      cases habs
    · exact hok
  have hdistinct : ∀ p q i,
      (symbols_place store order nsyms ntokens).2.getD p none = some i →
      (symbols_place store order nsyms ntokens).2.getD q none = some i →
      p = q := by
    intro p q i hp hq
    rw [← (hsound p i hp).2.2, ← (hsound q i hq).2.2]
  have hndsurv :
      (symbols_place store order nsyms ntokens).2.reduceOption.Nodup :=
    reduceOption_nodup _ hdistinct
  have hsurvids : ∀ i, some i ∈ (symbols_place store order nsyms ntokens).2 →
      i ∈ order ∧ placedP store i := by
    intro i hi
    obtain ⟨p, hp, hgd⟩ := mem_getD_of_mem _ (some i) none hi
    exact ⟨(hsound p i hgd).1, (hsound p i hgd).2.1⟩
  have hPfields : ∀ j,
      ((symbols_place store order nsyms ntokens).1 j).cls = (store j).cls ∧
      ((symbols_place store order nsyms ntokens).1 j).alias_ =
        (store j).alias_ ∧
      ((symbols_place store order nsyms ntokens).1 j).user_token_number =
        (store j).user_token_number := by
    intro j
    unfold symbols_place
    rw [place_store_char ntokens order (store, List.replicate nsyms none) H2 j]
    by_cases h : j ∈ order ∧ (store j).cls = SymClass.nterm_sym <;> simp [h]
  have hfull : ∀ p, ntokens ≤ p → p < nsyms →
      (symbols_place store order nsyms ntokens).2.getD p none ≠ none := by
    intro p hp1 hp2
    obtain ⟨i, hi, hcls, hnum⟩ := H8 (p - ntokens) (by omega)
    have hpos : pack_pos store ntokens i = p := by
      unfold pack_pos
      rw [if_pos hcls, hnum]
      omega
    rw [← hpos, hhit i hi (Or.inl hcls)]
    simp
  have htokreg : ∀ p i, p < ntokens →
      (symbols_place store order nsyms ntokens).2.getD p none = some i →
      (store i).cls = SymClass.token_sym := by
    intro p i hp hres
    obtain ⟨hi, hplaced, hpos⟩ := hsound p i hres
    by_cases hc : (store i).cls = SymClass.nterm_sym
    · exfalso
      unfold pack_pos at hpos
      rw [if_pos hc] at hpos
      omega
    · cases hcls : (store i).cls
      · exact absurd hcls (H4 i hi)
      · rfl
      · exact absurd hcls hc
  have hntreg : ∀ p i, ntokens ≤ p →
      (symbols_place store order nsyms ntokens).2.getD p none = some i →
      (store i).cls = SymClass.nterm_sym := by
    intro p i hp hres
    obtain ⟨hi, hplaced, hpos⟩ := hsound p i hres
    by_cases hc : (store i).cls = SymClass.nterm_sym
    · exact hc
    · exfalso
      have hu : (store i).user_token_number ≠ UserNum.hasStringAlias := by
        rcases hplaced with h | h
        · exact absurd h hc
        · exact h
      have htok : (store i).cls = SymClass.token_sym := by
        cases hcls : (store i).cls
        · exact absurd hcls (H4 i hi)
        · rfl
        · exact absurd hcls hc
      have := H5 i hi htok hu
      unfold pack_pos at hpos
      rw [if_neg hc] at hpos
      omega
  have hrun : symbols_pack_run store order nsyms ntokens =
      (symbols_place store order nsyms ntokens).2.foldl compact_step
        { store := (symbols_place store order nsyms ntokens).1, out := [],
          nsyms := nsyms, ntokens := ntokens } := rfl
  have hinv := compact_invariants store order H9 H10
    (symbols_place store order nsyms ntokens).2
    { store := (symbols_place store order nsyms ntokens).1, out := [],
      nsyms := nsyms, ntokens := ntokens }
    hsurvids hndsurv
    (fun i _ => List.not_mem_nil i)
    (fun i hi => absurd hi (List.not_mem_nil i))
    hPfields
    (fun w hw => absurd hw (by simp))
    (fun w hw => absurd hw (by simp))
  rw [← hrun] at hinv
  have hout : (symbols_pack_run store order nsyms ntokens).out =
      (symbols_place store order nsyms ntokens).2.reduceOption := by
    rw [hrun, compact_out]
    simp
  have hns : (symbols_pack_run store order nsyms ntokens).nsyms =
      nsyms - (symbols_place store order nsyms ntokens).2.countP
        (fun o => o.isNone) := by
    rw [hrun, compact_nsyms]
  have hnt : (symbols_pack_run store order nsyms ntokens).ntokens =
      ntokens - (symbols_place store order nsyms ntokens).2.countP
        (fun o => o.isNone) := by
    rw [hrun, compact_ntokens]
  have hsplit : (symbols_place store order nsyms ntokens).2 =
      (symbols_place store order nsyms ntokens).2.take ntokens ++
        (symbols_place store order nsyms ntokens).2.drop ntokens :=
    (List.take_append_drop ntokens _).symm
  have hdropnone : ((symbols_place store order nsyms ntokens).2.drop
      ntokens).countP (fun o => o.isNone) = 0 := by
    rw [List.countP_eq_zero]
    intro o ho
    obtain ⟨n, hn, hgn⟩ := List.mem_iff_getElem.mp ho
    have hlen2 : ntokens + n < nsyms := by
      rw [← hlenarr]
      simp at hn
      omega
    rw [List.getElem_drop] at hgn
    have hoeq : (symbols_place store order nsyms ntokens).2.getD
        (ntokens + n) none = o := by
      rw [List.getD_eq_getElem _ _ (by rw [hlenarr]; omega)]
      exact hgn
    have hne := hfull (ntokens + n) (by omega) hlen2
    rw [hoeq] at hne
    cases o
    · exact absurd rfl hne
    · simp
  have htklen : ((symbols_place store order nsyms ntokens).2.take
      ntokens).length = ntokens := by
    rw [List.length_take, hlenarr]
    exact Nat.min_eq_left hntleq
  have hcount : (symbols_place store order nsyms ntokens).2.countP
        (fun o => o.isNone) =
      ((symbols_place store order nsyms ntokens).2.take ntokens).countP
        (fun o => o.isNone) := by
    conv_lhs => rw [hsplit]
    rw [List.countP_append, hdropnone]
    omega
  have hE : (symbols_place store order nsyms ntokens).2.countP
      (fun o => o.isNone) ≤ ntokens := by
    rw [hcount]
    exact le_trans (List.countP_le_length _) (le_of_eq htklen)
  have hEns : (symbols_place store order nsyms ntokens).2.countP
      (fun o => o.isNone) ≤ nsyms := by
    exact le_trans (List.countP_le_length _) (le_of_eq hlenarr)
  have hrolen := reduceOption_length_add (symbols_place store order nsyms ntokens).2
  have houtlen : (symbols_pack_run store order nsyms ntokens).out.length =
      nsyms - (symbols_place store order nsyms ntokens).2.countP
        (fun o => o.isNone) := by
    rw [hout]
    omega
  have hROsplit : (symbols_place store order nsyms ntokens).2.reduceOption =
      ((symbols_place store order nsyms ntokens).2.take ntokens).reduceOption ++
        ((symbols_place store order nsyms ntokens).2.drop ntokens).reduceOption := by
    conv_lhs => rw [hsplit]
    rw [List.reduceOption_append]
  have htkrolen :
      (((symbols_place store order nsyms ntokens).2.take ntokens).reduceOption).length =
      ntokens - (symbols_place store order nsyms ntokens).2.countP
        (fun o => o.isNone) := by
    have := reduceOption_length_add
      ((symbols_place store order nsyms ntokens).2.take ntokens)
    rw [htklen] at this
    rw [← hcount] at this
    omega
  refine ⟨by omega, by omega, by omega, ?_, ?_, hinv.2.2⟩
  · have hmap : (symbols_pack_run store order nsyms ntokens).out.map
        (fun i => ((symbols_pack_run store order nsyms ntokens).store i).number) =
        List.range (symbols_pack_run store order nsyms ntokens).out.length := by
      apply List.ext_getElem
      · simp
      · intro k h1 h2
        rw [List.getElem_map, List.getElem_range]
        have hk : k < (symbols_pack_run store order nsyms ntokens).out.length := by
          simpa using h1
        have hgd := hinv.2.1 k hk
        rw [List.getD_eq_getElem _ _ hk] at hgd
        exact hgd
    rw [hmap]
    have hleneq : (symbols_pack_run store order nsyms ntokens).out.length =
        (symbols_pack_run store order nsyms ntokens).nsyms := by omega
    rw [hleneq]
  · intro w hw
    have hclsf : ∀ j, ((symbols_pack_run store order nsyms ntokens).store j).cls =
        (store j).cls := fun j => (hinv.1 j).1
    rw [hclsf]
    by_cases hwT : w < ntokens - (symbols_place store order nsyms ntokens).2.countP
        (fun o => o.isNone)
    · have hxmem : (symbols_pack_run store order nsyms ntokens).out.getD w 0 ∈
          ((symbols_place store order nsyms ntokens).2.take ntokens).reduceOption := by
        rw [hout, hROsplit, getD_append_left _ _ _ _ (by omega)]
        exact getD_mem _ _ _ (by omega)
      have hsome : some ((symbols_pack_run store order nsyms ntokens).out.getD w 0) ∈
          (symbols_place store order nsyms ntokens).2.take ntokens :=
        List.reduceOption_mem_iff.mp hxmem
      obtain ⟨n, hn, hgn⟩ := List.mem_iff_getElem.mp hsome
      have hnlt : n < ntokens := by
        rw [htklen] at hn
        exact hn
      rw [List.getElem_take] at hgn
      have hgd : (symbols_place store order nsyms ntokens).2.getD n none =
          some ((symbols_pack_run store order nsyms ntokens).out.getD w 0) := by
        rw [List.getD_eq_getElem _ _ (by rw [hlenarr]; omega)]
        exact hgn
      have htk := htokreg n _ hnlt hgd
      rw [htk]
      simp only [true_iff]
      omega
    · have hwlen : w - (ntokens - (symbols_place store order nsyms ntokens).2.countP
          (fun o => o.isNone)) <
          (((symbols_place store order nsyms ntokens).2.drop ntokens).reduceOption).length := by
        have h1 : (symbols_pack_run store order nsyms ntokens).out.length =
            (((symbols_place store order nsyms ntokens).2.take ntokens).reduceOption).length +
            (((symbols_place store order nsyms ntokens).2.drop ntokens).reduceOption).length := by
          rw [hout, hROsplit, List.length_append]
        omega
      have hxmem : (symbols_pack_run store order nsyms ntokens).out.getD w 0 ∈
          ((symbols_place store order nsyms ntokens).2.drop ntokens).reduceOption := by
        rw [hout, hROsplit, getD_append_right _ _ _ _ (by omega)]
        rw [htkrolen]
        exact getD_mem _ _ _ hwlen
      have hsome : some ((symbols_pack_run store order nsyms ntokens).out.getD w 0) ∈
          (symbols_place store order nsyms ntokens).2.drop ntokens :=
        List.reduceOption_mem_iff.mp hxmem
      obtain ⟨n, hn, hgn⟩ := List.mem_iff_getElem.mp hsome
      rw [List.getElem_drop] at hgn
      have hgd : (symbols_place store order nsyms ntokens).2.getD (ntokens + n) none =
          some ((symbols_pack_run store order nsyms ntokens).out.getD w 0) := by
        have hbnd : ntokens + n < nsyms := by
          rw [← hlenarr]
          simp at hn
          omega
        rw [List.getD_eq_getElem _ _ (by rw [hlenarr]; omega)]
        exact hgn
      have hnt2 := hntreg (ntokens + n) _ (by omega) hgd
      rw [hnt2]
      constructor
      · intro h
        cases h
      · intro h
        omega

/-- C2, witness: packing the three-record store (a token, the skipped
identifier side of its alias pair, and a nonterminal). -/
theorem symbols_pack_spec_witness :
    (packOrder.length = 3 ∧
     packOrder.Nodup ∧
     (3 : Nat) = 2 + 1 ∧
     (∀ i ∈ packOrder, (packStore i).cls ≠ SymClass.unknown_sym) ∧
     (∀ i ∈ packOrder, (packStore i).cls = SymClass.token_sym →
       (packStore i).user_token_number ≠ UserNum.hasStringAlias →
       (packStore i).number < 2) ∧
     (∀ i ∈ packOrder, (packStore i).cls = SymClass.nterm_sym →
       (packStore i).number < 1) ∧
     (∀ i ∈ packOrder, ∀ j ∈ packOrder, placedP packStore i →
       placedP packStore j →
       pack_pos packStore 2 i = pack_pos packStore 2 j → i = j) ∧
     (∀ v, v < 1 → ∃ i, i ∈ packOrder ∧
       (packStore i).cls = SymClass.nterm_sym ∧ (packStore i).number = v) ∧
     (∀ i ∈ packOrder, placedP packStore i → ∀ a,
       (packStore i).alias_ = some a →
       (packStore a).cls ≠ SymClass.nterm_sym ∧
       (packStore a).user_token_number = UserNum.hasStringAlias) ∧
     (∀ i ∈ packOrder, ∀ j ∈ packOrder, placedP packStore i →
       placedP packStore j → ∀ a, (packStore i).alias_ = some a →
       (packStore j).alias_ = some a → i = j)) ∧
    ((symbols_pack_run packStore packOrder 3 2).nsyms +
        (symbols_place packStore packOrder 3 2).2.countP (fun o => o.isNone) =
      3 ∧
    (symbols_pack_run packStore packOrder 3 2).ntokens +
        (symbols_place packStore packOrder 3 2).2.countP (fun o => o.isNone) =
      2 ∧
    (symbols_pack_run packStore packOrder 3 2).out.length =
      (symbols_pack_run packStore packOrder 3 2).nsyms ∧
    (symbols_pack_run packStore packOrder 3 2).out.map
        (fun i => ((symbols_pack_run packStore packOrder 3 2).store i).number) =
      List.range (symbols_pack_run packStore packOrder 3 2).nsyms ∧
    (∀ w, w < (symbols_pack_run packStore packOrder 3 2).out.length →
      (((symbols_pack_run packStore packOrder 3 2).store
          ((symbols_pack_run packStore packOrder 3 2).out.getD w 0)).cls =
            SymClass.token_sym ↔
        w < (symbols_pack_run packStore packOrder 3 2).ntokens)) ∧
    (∀ w, w < (symbols_pack_run packStore packOrder 3 2).out.length → ∀ a,
      ((symbols_pack_run packStore packOrder 3 2).store
        ((symbols_pack_run packStore packOrder 3 2).out.getD w 0)).alias_ =
          some a →
      ((symbols_pack_run packStore packOrder 3 2).store a).number = w)) :=
  ⟨⟨by decide, by decide, by decide, by decide, by decide, by decide, by decide,
    by decide, by decide, by decide⟩,
   symbols_pack_spec packStore packOrder 3 2 1 (by decide) (by decide)
     (by decide) (by decide) (by decide) (by decide) (by decide) (by decide)
     (by decide) (by decide)⟩

/-! ### Warshall-loop characterisations and the transitive reduction -/

theorem winner_iff {n : Nat} (m : Mat n) (k i : Fin n) (J : Nat) :
    ∀ a b, (winner m k i J a b = true ↔
      (m a b = true ∨ (a = i ∧ m i k = true ∧ m k b = true ∧ b.val < J))) := by
  induction J with
  | zero =>
    intro a b
    rw [winner]
    constructor
    · exact fun h => Or.inl h
    · rintro (h | ⟨_, _, _, hlt⟩)
      · exact h
      · omega
  | succ J ih =>
    intro a b
    rw [winner]
    by_cases h : J < n
    · rw [dif_pos h]
      have hik : winner m k i J i k = true ↔ m i k = true := by
        rw [ih i k]; tauto
      have hkc : ∀ c, (winner m k i J k c = true ↔ m k c = true) := by
        intro c; rw [ih k c]; tauto
      rw [wstep]
      by_cases hcond : (winner m k i J i k && winner m k i J k ⟨J, h⟩) = true
      · rw [if_pos hcond]
        rw [Bool.and_eq_true] at hcond
        obtain ⟨h1, h2⟩ := hcond
        have hm1 : m i k = true := hik.mp h1
        have hm2 : m k ⟨J, h⟩ = true := (hkc _).mp h2
        by_cases hab : a = i ∧ b = ⟨J, h⟩
        · rw [if_pos hab]
          obtain ⟨ha, hb⟩ := hab
          subst ha; subst hb
          constructor
          · exact fun _ => Or.inr ⟨rfl, hm1, hm2, Nat.lt_succ_self J⟩
          · exact fun _ => rfl
        · rw [if_neg hab]
          rw [ih a b]
          constructor
          · rintro (hmab | ⟨ha, hm3, hm4, hlt⟩)
            · exact Or.inl hmab
            · exact Or.inr ⟨ha, hm3, hm4, by omega⟩
          · rintro (hmab | ⟨ha, hm3, hm4, hlt⟩)
            · exact Or.inl hmab
            · by_cases hbJ : b.val < J
              · exact Or.inr ⟨ha, hm3, hm4, hbJ⟩
              · exact absurd ⟨ha, Fin.ext (show b.val = J by omega)⟩ hab
      · rw [if_neg hcond]
        rw [ih a b]
        have hnc : ¬(m i k = true ∧ m k ⟨J, h⟩ = true) := by
          intro ⟨p1, p2⟩
          rw [Bool.and_eq_true] at hcond
          exact hcond ⟨hik.mpr p1, (hkc _).mpr p2⟩
        constructor
        · rintro (hmab | ⟨ha, hm3, hm4, hlt⟩)
          · exact Or.inl hmab
          · exact Or.inr ⟨ha, hm3, hm4, by omega⟩
        · rintro (hmab | ⟨ha, hm3, hm4, hlt⟩)
          · exact Or.inl hmab
          · by_cases hbJ : b.val < J
            · exact Or.inr ⟨ha, hm3, hm4, hbJ⟩
            · have hb : b = ⟨J, h⟩ := Fin.ext (show b.val = J by omega)
              subst hb
              exact absurd ⟨hm3, hm4⟩ hnc
    · rw [dif_neg h]
      rw [ih a b]
      have hb1 : b.val < J := by have := b.isLt; omega
      constructor
      · rintro (hmab | ⟨ha, hm3, hm4, _⟩)
        · exact Or.inl hmab
        · exact Or.inr ⟨ha, hm3, hm4, by omega⟩
      · rintro (hmab | ⟨ha, hm3, hm4, _⟩)
        · exact Or.inl hmab
        · exact Or.inr ⟨ha, hm3, hm4, hb1⟩

theorem wmid_iff {n : Nat} (m : Mat n) (k : Fin n) (I : Nat) :
    ∀ a b, (wmid m k I a b = true ↔
      (m a b = true ∨ (a.val < I ∧ m a k = true ∧ m k b = true))) := by
  induction I with
  | zero =>
    intro a b
    rw [wmid]
    constructor
    · exact fun h => Or.inl h
    · rintro (h | ⟨hlt, _, _⟩)
      · exact h
      · omega
  | succ I ih =>
    intro a b
    rw [wmid]
    by_cases h : I < n
    · rw [dif_pos h]
      rw [winner_iff]
      have hwik : wmid m k I ⟨I, h⟩ k = true ↔ m ⟨I, h⟩ k = true := by
        rw [ih]
        constructor
        · rintro (p | ⟨hlt, _, _⟩)
          · exact p
          · exact absurd hlt (Nat.lt_irrefl I)
        · exact fun p => Or.inl p
      have hwkc : ∀ c, (wmid m k I k c = true ↔ m k c = true) := by
        intro c; rw [ih]; tauto
      rw [ih a b, hwik, hwkc]
      constructor
      · rintro ((p | ⟨hlt, p1, p2⟩) | ⟨ha, p1, p2, _⟩)
        · exact Or.inl p
        · exact Or.inr ⟨by omega, p1, p2⟩
        · subst ha
          exact Or.inr ⟨Nat.lt_succ_self I, p1, p2⟩
      · rintro (p | ⟨hlt, p1, p2⟩)
        · exact Or.inl (Or.inl p)
        · by_cases hI : a.val < I
          · exact Or.inl (Or.inr ⟨hI, p1, p2⟩)
          · have ha : a = ⟨I, h⟩ := Fin.ext (show a.val = I by omega)
            subst ha
            exact Or.inr ⟨rfl, p1, p2, b.isLt⟩
    · rw [dif_neg h]
      rw [ih a b]
      have ha1 : a.val < I := by have := a.isLt; omega
      constructor
      · rintro (p | ⟨_, p1, p2⟩)
        · exact Or.inl p
        · exact Or.inr ⟨by omega, p1, p2⟩
      · rintro (p | ⟨_, p1, p2⟩)
        · exact Or.inl p
        · exact Or.inr ⟨ha1, p1, p2⟩

theorem breach_mono {n : Nat} {g : Mat n} {K L : Nat} (hKL : K ≤ L)
    {a b : Fin n} (hb : BReach g K a b) : BReach g L a b := by
  induction hb with
  | base h => exact BReach.base h
  | comp h1 h2 hm ih1 ih2 => exact BReach.comp ih1 ih2 (by omega)

theorem breach_succ_iff {n : Nat} (g : Mat n) (K : Nat) (h : K < n)
    (a b : Fin n) :
    BReach g (K + 1) a b ↔
      (BReach g K a b ∨ (BReach g K a ⟨K, h⟩ ∧ BReach g K ⟨K, h⟩ b)) := by
  constructor
  · intro hb
    induction hb with
    | base hgab => exact Or.inl (BReach.base hgab)
    | comp h1 h2 hm ih1 ih2 =>
      rename_i i m j
      by_cases hlt : m.val < K
      · rcases ih1 with p1 | ⟨q1, q2⟩ <;> rcases ih2 with p2 | ⟨r1, r2⟩
        · exact Or.inl (BReach.comp p1 p2 hlt)
        · exact Or.inr ⟨BReach.comp p1 r1 hlt, r2⟩
        · exact Or.inr ⟨q1, BReach.comp q2 p2 hlt⟩
        · exact Or.inr ⟨q1, r2⟩
      · have hmK : m = ⟨K, h⟩ := Fin.ext (show m.val = K by omega)
        subst hmK
        have hik : BReach g K i ⟨K, h⟩ := by
          rcases ih1 with p | ⟨p, _⟩ <;> exact p
        have hkj : BReach g K ⟨K, h⟩ j := by
          rcases ih2 with p | ⟨_, p⟩ <;> exact p
        exact Or.inr ⟨hik, hkj⟩
  · rintro (p | ⟨p1, p2⟩)
    · exact breach_mono (Nat.le_succ K) p
    · exact BReach.comp (breach_mono (Nat.le_succ K) p1)
        (breach_mono (Nat.le_succ K) p2) (Nat.lt_succ_self K)

theorem wouter_iff {n : Nat} (g : Mat n) :
    ∀ K, K ≤ n → ∀ a b, (wouter g K a b = true ↔ BReach g K a b) := by
  intro K
  induction K with
  | zero =>
    intro _ a b
    rw [wouter]
    constructor
    · exact fun h => BReach.base h
    · intro hb
      cases hb with
      | base h => exact h
      | comp h1 h2 hm => omega
  | succ K ih =>
    intro hK a b
    have h : K < n := by omega
    rw [wouter, dif_pos h]
    rw [wmid_iff]
    have hle : K ≤ n := by omega
    rw [ih hle a b, ih hle a ⟨K, h⟩, ih hle ⟨K, h⟩ b]
    rw [breach_succ_iff g K h a b]
    constructor
    · rintro (p | ⟨_, p1, p2⟩)
      · exact Or.inl p
      · exact Or.inr ⟨p1, p2⟩
    · rintro (p | ⟨p1, p2⟩)
      · exact Or.inl p
      · exact Or.inr ⟨a.isLt, p1, p2⟩

theorem closureIter_iff {n : Nat} (g : Mat n) :
    ∀ K, K ≤ n → ∀ a b, (closureIter g K a b = true ↔ BReach g K a b) := by
  intro K
  induction K with
  | zero =>
    intro _ a b
    rw [closureIter]
    constructor
    · exact fun h => BReach.base h
    · intro hb
      cases hb with
      | base h => exact h
      | comp h1 h2 hm => omega
  | succ K ih =>
    intro hK a b
    have h : K < n := by omega
    have hle : K ≤ n := by omega
    rw [closureIter, dif_pos h, closureStep]
    rw [breach_succ_iff g K h a b]
    constructor
    · intro hb
      rw [Bool.or_eq_true, Bool.and_eq_true] at hb
      rcases hb with p | ⟨p1, p2⟩
      · exact Or.inl ((ih hle a b).mp p)
      · exact Or.inr ⟨(ih hle a _).mp p1, (ih hle _ b).mp p2⟩
    · intro hb
      rw [Bool.or_eq_true, Bool.and_eq_true]
      rcases hb with p | ⟨p1, p2⟩
      · exact Or.inl ((ih hle a b).mpr p)
      · exact Or.inr ⟨(ih hle a _).mpr p1, (ih hle _ b).mpr p2⟩

theorem transitive_closure_iff_breach {n : Nat} (g : Mat n) (a b : Fin n) :
    transitive_closure g a b = true ↔ BReach g n a b :=
  wouter_iff g n (Nat.le_refl n) a b

theorem transitive_closure_eval {n : Nat} (g : Mat n) (a b : Fin n) :
    transitive_closure g a b = closureIter g n a b := by
  rw [Bool.eq_iff_iff]
  rw [transitive_closure_iff_breach, closureIter_iff g n (Nat.le_refl n) a b]

theorem transitive_closure_transGen {n : Nat} (g : Mat n) (a b : Fin n) :
    transitive_closure g a b = true ↔ Relation.TransGen (MatRel g) a b := by
  rw [transitive_closure_iff_breach]
  constructor
  · intro hb
    induction hb with
    | base h => exact Relation.TransGen.single h
    | comp h1 h2 hm ih1 ih2 => exact Relation.TransGen.trans ih1 ih2
  · intro htg
    induction htg with
    | single h => exact BReach.base h
    | tail h1 h2 ih =>
      rename_i c d
      exact BReach.comp ih (BReach.base h2) c.isLt

theorem transitive_closure_trans {n : Nat} (g : Mat n) {a b c : Fin n}
    (h1 : transitive_closure g a b = true)
    (h2 : transitive_closure g b c = true) :
    transitive_closure g a c = true := by
  rw [transitive_closure_transGen] at h1 h2 ⊢
  exact Relation.TransGen.trans h1 h2

theorem edge_le_transitive_closure {n : Nat} (g : Mat n) {a b : Fin n}
    (h : g a b = true) : transitive_closure g a b = true := by
  rw [transitive_closure_transGen]
  exact Relation.TransGen.single h

/-! ### Characterisation of the `rem` loops -/

theorem remInner_iff {n : Nat} (cl : Mat n) (i j : Fin n) (rem : Mat n)
    (K : Nat) :
    ∀ a b, (remInner cl i j rem K a b = true ↔
      (rem a b = true ∨ (a = i ∧ cl j b = true ∧ b.val < K))) := by
  induction K with
  | zero =>
    intro a b
    rw [remInner]
    constructor
    · exact fun h => Or.inl h
    · rintro (h | ⟨_, _, hlt⟩)
      · exact h
      · omega
  | succ K ih =>
    intro a b
    rw [remInner]
    by_cases h : K < n
    · rw [dif_pos h]
      by_cases hc : cl j ⟨K, h⟩ = true
      · rw [if_pos hc, remSet]
        by_cases hab : a = i ∧ b = ⟨K, h⟩
        · rw [if_pos hab]
          obtain ⟨ha, hb⟩ := hab
          subst ha; subst hb
          constructor
          · exact fun _ => Or.inr ⟨rfl, hc, Nat.lt_succ_self K⟩
          · exact fun _ => rfl
        · rw [if_neg hab]
          rw [ih a b]
          constructor
          · rintro (p | ⟨ha, p1, hlt⟩)
            · exact Or.inl p
            · exact Or.inr ⟨ha, p1, by omega⟩
          · rintro (p | ⟨ha, p1, hlt⟩)
            · exact Or.inl p
            · by_cases hbK : b.val < K
              · exact Or.inr ⟨ha, p1, hbK⟩
              · exact absurd ⟨ha, Fin.ext (show b.val = K by omega)⟩ hab
      · rw [if_neg hc]
        rw [ih a b]
        constructor
        · rintro (p | ⟨ha, p1, hlt⟩)
          · exact Or.inl p
          · exact Or.inr ⟨ha, p1, by omega⟩
        · rintro (p | ⟨ha, p1, hlt⟩)
          · exact Or.inl p
          · by_cases hbK : b.val < K
            · exact Or.inr ⟨ha, p1, hbK⟩
            · have hb : b = ⟨K, h⟩ := Fin.ext (show b.val = K by omega)
              subst hb
              exact absurd p1 hc
    · rw [dif_neg h]
      rw [ih a b]
      have hb1 : b.val < K := by have := b.isLt; omega
      constructor
      · rintro (p | ⟨ha, p1, _⟩)
        · exact Or.inl p
        · exact Or.inr ⟨ha, p1, by omega⟩
      · rintro (p | ⟨ha, p1, _⟩)
        · exact Or.inl p
        · exact Or.inr ⟨ha, p1, hb1⟩

theorem remMid_iff {n : Nat} (cl : Mat n) (i : Fin n) (rem : Mat n) (J : Nat) :
    ∀ a b, (remMid cl i rem J a b = true ↔
      (rem a b = true ∨
        (a = i ∧ ∃ j : Fin n, j.val < J ∧ cl i j = true ∧ cl j b = true))) := by
  induction J with
  | zero =>
    intro a b
    rw [remMid]
    constructor
    · exact fun h => Or.inl h
    · rintro (h | ⟨_, j, hlt, _, _⟩)
      · exact h
      · omega
  | succ J ih =>
    intro a b
    rw [remMid]
    by_cases h : J < n
    · rw [dif_pos h]
      by_cases hc : cl i ⟨J, h⟩ = true
      · rw [if_pos hc]
        rw [remInner_iff]
        rw [ih a b]
        constructor
        · rintro ((p | ⟨ha, jj, hlt, p1, p2⟩) | ⟨ha, p1, _⟩)
          · exact Or.inl p
          · exact Or.inr ⟨ha, jj, by omega, p1, p2⟩
          · exact Or.inr ⟨ha, ⟨J, h⟩, Nat.lt_succ_self J, hc, p1⟩
        · rintro (p | ⟨ha, jj, hlt, p1, p2⟩)
          · exact Or.inl (Or.inl p)
          · by_cases hjJ : jj.val < J
            · exact Or.inl (Or.inr ⟨ha, jj, hjJ, p1, p2⟩)
            · have hj : jj = ⟨J, h⟩ := Fin.ext (show jj.val = J by omega)
              subst hj
              exact Or.inr ⟨ha, p2, b.isLt⟩
      · rw [if_neg hc]
        rw [ih a b]
        constructor
        · rintro (p | ⟨ha, jj, hlt, p1, p2⟩)
          · exact Or.inl p
          · exact Or.inr ⟨ha, jj, by omega, p1, p2⟩
        · rintro (p | ⟨ha, jj, hlt, p1, p2⟩)
          · exact Or.inl p
          · by_cases hjJ : jj.val < J
            · exact Or.inr ⟨ha, jj, hjJ, p1, p2⟩
            · have hj : jj = ⟨J, h⟩ := Fin.ext (show jj.val = J by omega)
              subst hj
              exact absurd p1 hc
    · rw [dif_neg h]
      rw [ih a b]
      constructor
      · rintro (p | ⟨ha, jj, hlt, p1, p2⟩)
        · exact Or.inl p
        · exact Or.inr ⟨ha, jj, by omega, p1, p2⟩
      · rintro (p | ⟨ha, jj, hlt, p1, p2⟩)
        · exact Or.inl p
        · exact Or.inr ⟨ha, jj, by have := jj.isLt; omega, p1, p2⟩

theorem remOuter_iff {n : Nat} (cl : Mat n) (rem : Mat n) (I : Nat) :
    ∀ a b, (remOuter cl rem I a b = true ↔
      (rem a b = true ∨
        (a.val < I ∧ ∃ j : Fin n, cl a j = true ∧ cl j b = true))) := by
  induction I with
  | zero =>
    intro a b
    rw [remOuter]
    constructor
    · exact fun h => Or.inl h
    · rintro (h | ⟨hlt, _⟩)
      · exact h
      · omega
  | succ I ih =>
    intro a b
    rw [remOuter]
    by_cases h : I < n
    · rw [dif_pos h]
      rw [remMid_iff]
      rw [ih a b]
      constructor
      · rintro ((p | ⟨hlt, jj, p1, p2⟩) | ⟨ha, jj, _, p1, p2⟩)
        · exact Or.inl p
        · exact Or.inr ⟨by omega, jj, p1, p2⟩
        · subst ha
          exact Or.inr ⟨Nat.lt_succ_self I, jj, p1, p2⟩
      · rintro (p | ⟨hlt, jj, p1, p2⟩)
        · exact Or.inl (Or.inl p)
        · by_cases hI : a.val < I
          · exact Or.inl (Or.inr ⟨hI, jj, p1, p2⟩)
          · have ha : a = ⟨I, h⟩ := Fin.ext (show a.val = I by omega)
            subst ha
            exact Or.inr ⟨rfl, jj, jj.isLt, p1, p2⟩
    · rw [dif_neg h]
      rw [ih a b]
      constructor
      · rintro (p | ⟨_, jj, p1, p2⟩)
        · exact Or.inl p
        · exact Or.inr ⟨by omega, jj, p1, p2⟩
      · rintro (p | ⟨_, jj, p1, p2⟩)
        · exact Or.inl p
        · exact Or.inr ⟨by have := a.isLt; omega, jj, p1, p2⟩

theorem remMatrix_iff {n : Nat} (cl : Mat n) (a b : Fin n) :
    remMatrix cl a b = true ↔
      ∃ j : Fin n, cl a j = true ∧ cl j b = true := by
  rw [remMatrix, remOuter_iff]
  constructor
  · rintro (p | ⟨_, jj, p1, p2⟩)
    · exact absurd p (by simp)
    · exact ⟨jj, p1, p2⟩
  · rintro ⟨jj, p1, p2⟩
    exact Or.inr ⟨a.isLt, jj, p1, p2⟩

theorem transitive_reduction_iff {n : Nat} (g : Mat n) (a b : Fin n) :
    transitive_reduction g a b = true ↔
      (transitive_closure g a b = true ∧
        ¬ ∃ j : Fin n, transitive_closure g a j = true ∧
          transitive_closure g j b = true) := by
  simp only [transitive_reduction]
  rw [Bool.and_eq_true, Bool.not_eq_true']
  constructor
  · rintro ⟨p1, p2⟩
    refine ⟨p1, fun hex => ?_⟩
    rw [← remMatrix_iff (transitive_closure g) a b] at hex
    rw [hex] at p2
    exact absurd p2 (by simp)
  · rintro ⟨p1, p2⟩
    refine ⟨p1, ?_⟩
    by_cases hrm : remMatrix (transitive_closure g) a b = true
    · exact absurd ((remMatrix_iff _ a b).mp hrm) p2
    · exact Bool.eq_false_iff.mpr hrm

theorem clInterval_mem {n : Nat} (g : Mat n) (a b c : Fin n) :
    c ∈ clInterval g a b ↔
      (transitive_closure g a c = true ∧ transitive_closure g c b = true) := by
  rw [clInterval, Finset.mem_filter]
  simp [Finset.mem_univ]

theorem closure_reduction_le {n : Nat} (g : Mat n) (a b : Fin n)
    (h : transitive_closure (transitive_reduction g) a b = true) :
    transitive_closure g a b = true := by
  rw [transitive_closure_transGen] at h ⊢
  induction h with
  | single e =>
    exact (transitive_closure_transGen g _ _).mp
      ((transitive_reduction_iff g _ _).mp e).1
  | tail h1 e ih =>
    exact Relation.TransGen.trans ih
      ((transitive_closure_transGen g _ _).mp
        ((transitive_reduction_iff g _ _).mp e).1)

theorem reduction_reaches {n : Nat} (g : Mat n)
    (hacyc : ∀ i, transitive_closure g i i = false) :
    ∀ N, ∀ a b : Fin n, (clInterval g a b).card ≤ N →
      transitive_closure g a b = true →
      Relation.TransGen (MatRel (transitive_reduction g)) a b := by
  intro N
  induction N with
  | zero =>
    intro a b hcard hcl
    by_cases hrem : ∃ j : Fin n, transitive_closure g a j = true ∧
        transitive_closure g j b = true
    · obtain ⟨j, hj1, hj2⟩ := hrem
      have hjmem : j ∈ clInterval g a b :=
        (clInterval_mem g a b j).mpr ⟨hj1, hj2⟩
      have hpos : 0 < (clInterval g a b).card :=
        Finset.card_pos.mpr ⟨j, hjmem⟩
      omega
    · exact Relation.TransGen.single
        ((transitive_reduction_iff g a b).mpr ⟨hcl, hrem⟩)
  | succ N ih =>
    intro a b hcard hcl
    by_cases hrem : ∃ j : Fin n, transitive_closure g a j = true ∧
        transitive_closure g j b = true
    · obtain ⟨j, hj1, hj2⟩ := hrem
      have hsub1 : clInterval g a j ⊆ clInterval g a b := by
        intro c hc
        rw [clInterval_mem] at hc ⊢
        exact ⟨hc.1, transitive_closure_trans g hc.2 hj2⟩
      have hss1 : clInterval g a j ⊂ clInterval g a b := by
        rw [Finset.ssubset_iff_of_subset hsub1]
        refine ⟨j, (clInterval_mem g a b j).mpr ⟨hj1, hj2⟩, fun hjin => ?_⟩
        have hjj : transitive_closure g j j = true :=
          ((clInterval_mem g a j j).mp hjin).2
        rw [hacyc j] at hjj
        exact absurd hjj (by simp)
      have hsub2 : clInterval g j b ⊆ clInterval g a b := by
        intro c hc
        rw [clInterval_mem] at hc ⊢
        exact ⟨transitive_closure_trans g hj1 hc.1, hc.2⟩
      have hss2 : clInterval g j b ⊂ clInterval g a b := by
        rw [Finset.ssubset_iff_of_subset hsub2]
        refine ⟨j, (clInterval_mem g a b j).mpr ⟨hj1, hj2⟩, fun hjin => ?_⟩
        have hjj : transitive_closure g j j = true :=
          ((clInterval_mem g j b j).mp hjin).1
        rw [hacyc j] at hjj
        exact absurd hjj (by simp)
      have hc1 : (clInterval g a j).card ≤ N := by
        have := Finset.card_lt_card hss1; omega
      have hc2 : (clInterval g j b).card ≤ N := by
        have := Finset.card_lt_card hss2; omega
      exact Relation.TransGen.trans (ih a j hc1 hj1) (ih j b hc2 hj2)
    · exact Relation.TransGen.single
        ((transitive_reduction_iff g a b).mpr ⟨hcl, hrem⟩)

theorem transitive_reduction_eval {n : Nat} (g : Mat n) (a b : Fin n) :
    transitive_reduction g a b =
      (closureIter g n a b &&
        ! decide (∃ j : Fin n, closureIter g n a j = true ∧
            closureIter g n j b = true)) := by
  rw [Bool.eq_iff_iff, transitive_reduction_iff]
  rw [Bool.and_eq_true, Bool.not_eq_true', decide_eq_false_iff_not]
  simp only [transitive_closure_eval]

/-- C1, counterexample: on the one-node graph with a self-loop the closure
has the edge `0→0`, but the reduction drops it, so the closure of the
emitted reduction differs from the closure of the input. -/
theorem transitive_reduction_not_closure_preserving :
    transitive_closure gLoop 0 0 = true ∧
    transitive_reduction gLoop 0 0 = false ∧
    transitive_closure (transitive_reduction gLoop) 0 0 = false := by
  decide

/-- C1 (amended): whenever the Warshall closure of the input is irreflexive
(the input has no cycles), the emitted reduction has the same transitive
closure as the input, and it is minimal: any subset of it with the same
closure is the reduction itself. -/
theorem transitive_reduction_spec {n : Nat} (g : Mat n)
    (hacyc : ∀ i, transitive_closure g i i = false) :
    (∀ a b, transitive_closure (transitive_reduction g) a b =
      transitive_closure g a b) ∧
    (∀ S : Mat n,
      (∀ a b, S a b = true → transitive_reduction g a b = true) →
      (∀ a b, transitive_closure S a b = transitive_closure g a b) →
      ∀ a b, S a b = transitive_reduction g a b) := by
  constructor
  · intro a b
    rw [Bool.eq_iff_iff]
    constructor
    · exact closure_reduction_le g a b
    · intro hcl
      rw [transitive_closure_transGen]
      exact reduction_reaches g hacyc (clInterval g a b).card a b
        (Nat.le_refl _) hcl
  · intro S hSR hScl a b
    by_cases hR : transitive_reduction g a b = true
    · rw [hR]
      obtain ⟨hcl, hnorem⟩ := (transitive_reduction_iff g a b).mp hR
      have hclS : transitive_closure S a b = true := by
        rw [hScl a b]; exact hcl
      rw [transitive_closure_transGen] at hclS
      rw [Relation.TransGen.head'_iff] at hclS
      obtain ⟨m, hSam, hrtg⟩ := hclS
      rcases Relation.ReflTransGen.cases_head hrtg with hmb | ⟨c, hmc, hcb⟩
      · subst hmb; exact hSam
      · exfalso
        have htg : Relation.TransGen (MatRel S) m b :=
          Relation.TransGen.head' hmc hcb
        have h1 : transitive_closure g a m = true :=
          ((transitive_reduction_iff g a m).mp (hSR a m hSam)).1
        have h2 : transitive_closure g m b = true := by
          rw [← hScl m b, transitive_closure_transGen]
          exact htg
        exact hnorem ⟨m, h1, h2⟩
    · have hS : S a b = false := Bool.eq_false_iff.mpr (fun h => hR (hSR a b h))
      rw [hS, Bool.eq_false_iff.mpr hR]

/-- C1, witness: the three-node instance with edges 0→1, 1→2, 0→2 is
acyclic, its reduction keeps 0→1 and 1→2 and drops the redundant 0→2, and
the reduction's closure agrees with the input's closure on the dropped
pair. -/
theorem transitive_reduction_spec_witness :
    ((∀ i : Fin 3, transitive_closure g3 i i = false) ∧
      transitive_reduction g3 0 1 = true ∧
      transitive_reduction g3 1 2 = true ∧
      transitive_reduction g3 0 2 = false) ∧
    transitive_closure (transitive_reduction g3) 0 2 =
      transitive_closure g3 0 2 := by
  have hacyc : ∀ i : Fin 3, transitive_closure g3 i i = false := by
    have h : ∀ i : Fin 3, closureIter g3 3 i i = false := by decide
    intro i
    rw [transitive_closure_eval]
    exact h i
  refine ⟨⟨hacyc, ?_, ?_, ?_⟩, (transitive_reduction_spec g3 hacyc).1 0 2⟩
  · rw [transitive_reduction_eval]; decide
  · rw [transitive_reduction_eval]; decide
  · rw [transitive_reduction_eval]; decide

end Symtab